import Mathlib

/-!
Verification of the locker-allocation engine of `main.py`
(repository Dot-P/Locker-Competition).

The engine turns a term's raw form submissions into accepted
applicant/partner allocation rows and per-submission outcome codes
("S0", "E1", "E2", "E3"), carrying an ineligibility set across terms.

Python strings are modelled by `String`; the byte-position based
operations of the Lean core library do not reduce in the kernel, so the
handful of Python string operations the engine uses (`strip`,
`replace`, `endswith`, `int(...)`, regex matching) are modelled
explicitly over the character list `String.data`.  `\d` of the id
regular expression and `int()` digits are modelled over the ASCII
digits `'0'..'9'` (the ids and floor numbers of the forms).  Python
dictionaries keyed by person id are modelled by first-occurrence key
lists plus `List.filter`, which reproduces insertion order; Python's
stable `sorted` is modelled by the stable `List.insertionSort`.
-/

namespace Locker

/-- `str.strip()`: drop whitespace from both ends. -/
def pyStrip (s : String) : String :=
  ⟨((s.data.dropWhile Char.isWhitespace).reverse.dropWhile Char.isWhitespace).reverse⟩

/-- `value.replace(c, "")` for a single-character pattern: remove every
occurrence of `c` (Python `str.replace` replaces all occurrences). -/
def pyRemoveChar (s : String) (c : Char) : String :=
  ⟨s.data.filter (fun d => d ≠ c)⟩

/-- `value.endswith(c)` for a single-character suffix. -/
def pyEndsWithChar (s : String) (c : Char) : Bool :=
  s.data.getLast? == some c

/-- Value of a nonempty all-digit character sequence, else `none`. -/
def digitsVal (cs : List Char) : Option Nat :=
  if cs = [] then none
  else if cs.all Char.isDigit then
    some (cs.foldl (fun n c => 10 * n + (c.toNat - '0'.toNat)) 0)
  else none

/-- Python `int(value)` on a string: surrounding whitespace is allowed,
then an optional sign followed by digits. -/
def pyParseInt (s : String) : Option Int :=
  match (pyStrip s).data with
  | '+' :: rest => (digitsVal rest).map Int.ofNat
  | '-' :: rest => (digitsVal rest).map (fun n => -(n : Int))
  | cs => (digitsVal cs).map Int.ofNat

/-- The body of `STUDENT_ID_RE = re.compile(r"^(15\d{5}|[48][1-6]\d{5})$")`:
seven characters, either `15` followed by five digits, or `4`/`8`
followed by a digit `1`-`6` followed by five digits. -/
def matchesStudentCore (cs : List Char) : Bool :=
  match cs with
  | [c0, c1, c2, c3, c4, c5, c6] =>
    ([c2, c3, c4, c5, c6].all Char.isDigit) &&
      ((c0 = '1' && c1 = '5') ||
        ((c0 = '4' || c0 = '8') && ('1' ≤ c1 && c1 ≤ '6')))
  | _ => false

/-- `is_valid_student_id`: `bool(STUDENT_ID_RE.match(value))`.  In Python
the `$` anchor also matches just before a single newline at the end of
the string, so a match optionally ignores one trailing `'\n'`. -/
def is_valid_student_id (s : String) : Bool :=
  matchesStudentCore s.data ||
    (s.data.getLast? == some '\n' && matchesStudentCore s.data.dropLast)

/-- `parse_floor(row)`, as a function of the two floor-choice field
values (`row.get` of the two columns, defaulting to `""`). -/
def parse_floor (fa fb : String) : Option Int :=
  let a := pyStrip fa
  let b := pyStrip fb
  if (a ≠ "" ∧ b ≠ "") ∨ (a = "" ∧ b = "") then none
  else
    let value := if a ≠ "" then a else b
    let value := if pyEndsWithChar value '階' then pyRemoveChar value '階' else value
    match pyParseInt value with
    | none => none
    | some floor => if floor < 2 ∨ 6 < floor then none else some floor

/-- One form entry (the `Submission` dataclass).  Timestamps are
seconds (`datetime` values are totally ordered by their second count,
cf. `toSeconds` below); `partner_id`, `partner_name`, `has_partner` are
`""` when absent (they are only read on applicant submissions, where
`build_submissions` always sets them to stripped strings). -/
structure Submission where
  role : String
  row_index : Nat
  timestamp : Int
  term : Int
  person_id : String
  person_name : String
  photo : String
  consent : String
  partner_id : String := ""
  partner_name : String := ""
  has_partner : String := ""
  floor : Option Int := none
  error : Option String := none
deriving DecidableEq, Repr

/-- An accepted allocation row `(applicantId, applicantName,
partnerId-or-empty, partnerName-or-empty, floor)`. -/
structure Row where
  appId : String
  appName : String
  parId : String
  parName : String
  floor : Int
deriving DecidableEq, Repr

/-- Identity of a submission object inside one term's lists: within a
run, `row_index` enumerates each role's file, so `(role, row_index)`
is unique per submission. -/
abbrev SubKey := String × Nat

def subId (s : Submission) : SubKey := (s.role, s.row_index)

def CONSENT_OK : String := "利用規約に同意する"

def PHOTO_OK : String := "accept"

def WITH_PARTNER : String := "共同利用者あり"

def WITHOUT_PARTNER : String := "共同利用者なし (2階・3階のロッカーは使用できません)"

/-- `apply_input_validation(sub)`: first failing rule yields `"E1"`. -/
def apply_input_validation (sub : Submission) : Option String :=
  if sub.person_id = "" ∨ sub.person_name = "" then some "E1"
  else if ¬ is_valid_student_id sub.person_id then some "E1"
  else if sub.consent ≠ CONSENT_OK then some "E1"
  else if sub.photo ≠ PHOTO_OK then some "E1"
  else if sub.role = "app" then
    if sub.has_partner ≠ WITH_PARTNER ∧ sub.has_partner ≠ WITHOUT_PARTNER then some "E1"
    else if sub.floor = none then some "E1"
    else if (sub.floor = some 2 ∨ sub.floor = some 3) ∧ sub.has_partner ≠ WITH_PARTNER then
      some "E1"
    else if sub.has_partner = WITH_PARTNER then
      if sub.partner_id = "" ∨ sub.partner_name = "" then some "E1"
      else if ¬ is_valid_student_id sub.partner_id then some "E1"
      else none
    else
      if sub.partner_id ≠ "" ∨ sub.partner_name ≠ "" then some "E1" else none
  else none

/-- The sort key `(s.timestamp, s.row_index)`, as a Boolean total
preorder (lexicographic). -/
def subLE (a b : Submission) : Bool :=
  a.timestamp < b.timestamp || (a.timestamp == b.timestamp && a.row_index ≤ b.row_index)

def subLe (a b : Submission) : Prop := subLE a b = true

instance : DecidableRel subLe := fun a b => inferInstanceAs (Decidable (subLE a b = true))

instance : IsTrans Submission subLe where
  trans := by
    intro a b c hab hbc
    simp only [subLe, subLE, Bool.or_eq_true, Bool.and_eq_true, decide_eq_true_eq,
      beq_iff_eq] at *
    omega

instance : IsTotal Submission subLe where
  total := by
    intro a b
    simp only [subLe, subLE, Bool.or_eq_true, Bool.and_eq_true, decide_eq_true_eq,
      beq_iff_eq]
    omega

/-- Python's `sorted(items, key=lambda s: (s.timestamp, s.row_index))`
is a stable ascending sort; modelled by stable insertion sort. -/
def sortSubs (l : List Submission) : List Submission :=
  List.insertionSort subLe l

/-- Keys of a Python dict built by repeated `setdefault`: the distinct
values of `l` in first-occurrence order. -/
def uniqueKeys (l : List String) : List String :=
  l.foldl (fun acc x => if x ∈ acc then acc else acc ++ [x]) []

/-- `choose_latest_by_person(subs)`: group by `person_id` (dict
insertion order; each group keeps the original order, i.e. is a
`filter`), sort each group by `(timestamp, row_index)`, keep the last
element of each group and drop the rest. -/
def choose_latest_by_person (subs : List Submission) :
    List Submission × List Submission :=
  let groups := (uniqueKeys (subs.map (·.person_id))).map
    (fun pid => subs.filter (fun s => s.person_id == pid))
  (groups.filterMap (fun g => (sortSubs g).getLast?),
   groups.flatMap (fun g => (sortSubs g).dropLast))

/-- `sub.error = apply_input_validation(sub)` (line 216). -/
def validateStage (s : Submission) : Submission :=
  { s with error := apply_input_validation s }

/-- Lines 220-223: a clean applicant requiring a partner whose
`partner_id` has no partner form this term gets `"E1"`. -/
def partnerExistsStage (all_partner_ids : List String) (a : Submission) : Submission :=
  if a.error = none ∧ a.has_partner = WITH_PARTNER ∧ a.partner_id ∉ all_partner_ids then
    { a with error := some "E1" }
  else a

/-- Lines 226-228: a clean submission of an already-allocated person
gets `"E2"`. -/
def e2Stage (ineligible_ids : List String) (s : Submission) : Submission :=
  if s.error = none ∧ s.person_id ∈ ineligible_ids then
    { s with error := some "E2" }
  else s

/-- In-place `s.error = "E3"` on the submissions named by `ks`.  Every
submission the source marks this way is clean at the moment of the
write (it was drawn from a clean candidate set), so the `s.error =
none` guard only encodes that the write targets those objects. -/
def markE3 (ks : List SubKey) (s : Submission) : Submission :=
  if subId s ∈ ks ∧ s.error = none then { s with error := some "E3" } else s

/-- Lines 309-318: a still-clean submission whose `person_id` appears
in the accepted rows gets `"S0"`, any other still-clean one `"E3"`. -/
def classifyStage (validIds : List String) (s : Submission) : Submission :=
  if s.error = none ∧ s.person_id ∈ validIds then { s with error := some "S0" }
  else if s.error = none then { s with error := some "E3" }
  else s

/-- `partner_by_id.get(pid)`: the dict `{s.person_id: s for s in
par_candidates}` keeps the last entry for a key. -/
def partnerLookup (par_candidates : List Submission) (pid : String) : Option Submission :=
  (par_candidates.filter (fun p => p.person_id == pid)).getLast?

/-- Lines 247-250: applicant-candidates requiring a partner that is not
in the partner index. -/
def needPartnerKeys (par_candidates app_candidates : List Submission) : List SubKey :=
  (app_candidates.filter
    (fun a => a.has_partner == WITH_PARTNER &&
      (partnerLookup par_candidates a.partner_id).isNone)).map subId

/-- Lines 252-258: group the clean partner-requiring
applicant-candidates by `partner_id`, in dict insertion order. -/
def conflictGroups (reqs : List Submission) : List (List Submission) :=
  (uniqueKeys (reqs.map (·.partner_id))).map
    (fun pid => reqs.filter (fun a => a.partner_id == pid))

/-- Lines 260-267: in every conflict group of size `> 1`, all but the
earliest applicant (sorted by `(timestamp, row_index)`) lose. -/
def conflictLoserKeys (reqs : List Submission) : List SubKey :=
  (conflictGroups reqs).flatMap
    (fun g => if g.length ≤ 1 then [] else ((sortSubs g).drop 1).map subId)

/-- State of the emission loop of lines 269-299: partner ids already
paired, accepted rows, and applicants rejected inside the loop. -/
structure EmitState where
  paired : List String
  rows : List Row
  dead : List SubKey
deriving Repr

/-- One iteration of the emission loop (lines 272-299). -/
def emitStep (par_candidates : List Submission) (st : EmitState) (a : Submission) :
    EmitState :=
  if a.error ≠ none then st
  else if a.has_partner = WITH_PARTNER then
    match partnerLookup par_candidates a.partner_id with
    | none => { st with dead := st.dead ++ [subId a] }
    | some p =>
      if p.error ≠ none then { st with dead := st.dead ++ [subId a] }
      else
        { paired := st.paired ++ [p.person_id]
          rows := st.rows ++
            [⟨a.person_id, a.person_name, p.person_id, p.person_name, a.floor.getD 0⟩]
          dead := st.dead }
  else
    { st with rows := st.rows ++ [⟨a.person_id, a.person_name, "", "", a.floor.getD 0⟩] }

/-- The row (if any) the emission loop appends for one applicant. -/
def emitRowOf (par_candidates : List Submission) (a : Submission) : List Row :=
  if a.error ≠ none then []
  else if a.has_partner = WITH_PARTNER then
    match partnerLookup par_candidates a.partner_id with
    | none => []
    | some p =>
      if p.error ≠ none then []
      else [⟨a.person_id, a.person_name, p.person_id, p.person_name, a.floor.getD 0⟩]
  else [⟨a.person_id, a.person_name, "", "", a.floor.getD 0⟩]

/-- The rows appended by the emission loop, as a direct recursion (the
branch conditions of `emitStep` do not depend on the accumulated
state, so the loop's row output is this per-element concatenation). -/
def emitRows (par_candidates : List Submission) : List Submission → List Row
  | [] => []
  | a :: l =>
    (if a.error ≠ none then []
     else if a.has_partner = WITH_PARTNER then
       match partnerLookup par_candidates a.partner_id with
       | none => []
       | some p =>
         if p.error ≠ none then []
         else [⟨a.person_id, a.person_name, p.person_id, p.person_name, a.floor.getD 0⟩]
     else [⟨a.person_id, a.person_name, "", "", a.floor.getD 0⟩]) ++
      emitRows par_candidates l

/-! The body of `process_term` (lines 208-320), one named definition
per local of the source in source order. -/

/-- `apps` after line 216. -/
def pt_apps1 (apps : List Submission) : List Submission :=
  apps.map validateStage

/-- `pars` after line 216. -/
def pt_pars1 (pars : List Submission) : List Submission :=
  pars.map validateStage

/-- `all_partner_ids` (line 219; a set, used through membership). -/
def pt_all_partner_ids (pars : List Submission) : List String :=
  ((pt_pars1 pars).filter (fun p => p.person_id ≠ "")).map (·.person_id)

/-- `apps` after lines 220-223. -/
def pt_apps2 (apps pars : List Submission) : List Submission :=
  (pt_apps1 apps).map (partnerExistsStage (pt_all_partner_ids pars))

/-- `apps` after lines 226-228. -/
def pt_apps3 (apps pars : List Submission) (inel : List String) : List Submission :=
  (pt_apps2 apps pars).map (e2Stage inel)

/-- `pars` after lines 226-228. -/
def pt_pars3 (pars : List Submission) (inel : List String) : List Submission :=
  (pt_pars1 pars).map (e2Stage inel)

/-- `candidates` (line 231). -/
def pt_candidates (apps pars : List Submission) (inel : List String) : List Submission :=
  (pt_apps3 apps pars inel ++ pt_pars3 pars inel).filter (fun s => s.error = none)

/-- `kept, dropped` (line 234). -/
def pt_chosen (apps pars : List Submission) (inel : List String) :
    List Submission × List Submission :=
  choose_latest_by_person (pt_candidates apps pars inel)

/-- The identities of the dropped submissions of lines 235-236. -/
def pt_droppedKeys (apps pars : List Submission) (inel : List String) : List SubKey :=
  (pt_chosen apps pars inel).2.map subId

/-- `apps` after lines 235-236. -/
def pt_apps4 (apps pars : List Submission) (inel : List String) : List Submission :=
  (pt_apps3 apps pars inel).map (markE3 (pt_droppedKeys apps pars inel))

/-- `pars` after lines 235-236. -/
def pt_pars4 (apps pars : List Submission) (inel : List String) : List Submission :=
  (pt_pars3 pars inel).map (markE3 (pt_droppedKeys apps pars inel))

/-- `candidates` (line 238). -/
def pt_candidates2 (apps pars : List Submission) (inel : List String) : List Submission :=
  (pt_chosen apps pars inel).1.filter (fun s => s.error = none)

/-- `app_candidates` (line 239). -/
def pt_app_candidates (apps pars : List Submission) (inel : List String) : List Submission :=
  (pt_candidates2 apps pars inel).filter (fun s => s.role == "app")

/-- `par_candidates` (line 240). -/
def pt_par_candidates (apps pars : List Submission) (inel : List String) : List Submission :=
  (pt_candidates2 apps pars inel).filter (fun s => s.role == "par")

/-- The identities marked in lines 247-250. -/
def pt_needKeys (apps pars : List Submission) (inel : List String) : List SubKey :=
  needPartnerKeys (pt_par_candidates apps pars inel) (pt_app_candidates apps pars inel)

/-- `app_candidates` after lines 247-250. -/
def pt_appC1 (apps pars : List Submission) (inel : List String) : List Submission :=
  (pt_app_candidates apps pars inel).map (markE3 (pt_needKeys apps pars inel))

/-- The applicants gathered into `applicants_by_partner` (lines 253-258). -/
def pt_reqs (apps pars : List Submission) (inel : List String) : List Submission :=
  (pt_appC1 apps pars inel).filter
    (fun a => a.error == none && a.has_partner == WITH_PARTNER)

/-- The identities marked in lines 260-267. -/
def pt_loserKeys (apps pars : List Submission) (inel : List String) : List SubKey :=
  conflictLoserKeys (pt_reqs apps pars inel)

/-- `app_candidates` after lines 260-267. -/
def pt_appC2 (apps pars : List Submission) (inel : List String) : List Submission :=
  (pt_appC1 apps pars inel).map (markE3 (pt_loserKeys apps pars inel))

/-- `paired_partner_ids`, `valid_rows` and the in-loop rejections of
lines 269-299. -/
def pt_emitted (apps pars : List Submission) (inel : List String) : EmitState :=
  (pt_appC2 apps pars inel).foldl (emitStep (pt_par_candidates apps pars inel)) ⟨[], [], []⟩

/-- The identities marked in lines 301-304 (unclaimed partners). -/
def pt_parUnpairedKeys (apps pars : List Submission) (inel : List String) : List SubKey :=
  ((pt_par_candidates apps pars inel).filter
    (fun p => p.error == none && p.person_id ∉ (pt_emitted apps pars inel).paired)).map subId

/-- `apps` after the pairing loops (lines 247-299). -/
def pt_apps5 (apps pars : List Submission) (inel : List String) : List Submission :=
  (pt_apps4 apps pars inel).map
    (markE3 (pt_needKeys apps pars inel ++ pt_loserKeys apps pars inel ++
      (pt_emitted apps pars inel).dead))

/-- `pars` after lines 301-304. -/
def pt_pars5 (apps pars : List Submission) (inel : List String) : List Submission :=
  (pt_pars4 apps pars inel).map (markE3 (pt_parUnpairedKeys apps pars inel))

/-- `valid_app_ids` (line 307). -/
def pt_valid_app_ids (apps pars : List Submission) (inel : List String) : List String :=
  (pt_emitted apps pars inel).rows.map (·.appId)

/-- `valid_par_ids` (line 308). -/
def pt_valid_par_ids (apps pars : List Submission) (inel : List String) : List String :=
  ((pt_emitted apps pars inel).rows.filter (fun r => r.parId ≠ "")).map (·.parId)

/-- `process_term(term, apps, pars, ineligible_ids)` (lines 208-320);
the `term` argument is unused by the source body.  Mutation of the
shared submission objects is rendered by updating both the candidate
sublists and the full lists through the `(role, row_index)` identity. -/
def process_term (apps pars : List Submission) (ineligible_ids : List String) :
    List Submission × List Submission × List Row :=
  ((pt_apps5 apps pars ineligible_ids).map
      (classifyStage (pt_valid_app_ids apps pars ineligible_ids)),
   (pt_pars5 apps pars ineligible_ids).map
      (classifyStage (pt_valid_par_ids apps pars ineligible_ids)),
   (pt_emitted apps pars ineligible_ids).rows)

/-! ### The term segmenter (`term_index`, `term_start_from_timestamp`)

Python `datetime` values are modelled by their civil fields; ordering,
subtraction and `total_seconds` go through the proleptic Gregorian
second count `toSeconds`. -/

/-- A parsed `YYYY-MM-DD HH:MM:SS` timestamp. -/
structure PyDateTime where
  year : Int
  month : Int
  day : Int
  hour : Int
  minute : Int
  second : Int
deriving DecidableEq, Repr

/-- Days from 1970-01-01 of a civil date (standard days-from-civil
computation, proleptic Gregorian calendar). -/
def daysFromCivil (y m d : Int) : Int :=
  let y2 := if m ≤ 2 then y - 1 else y
  let era := Int.fdiv y2 400
  let yoe := y2 - era * 400
  let mp := Int.emod (m + 9) 12
  let doy := Int.fdiv (153 * mp + 2) 5 + d - 1
  let doe := yoe * 365 + Int.fdiv yoe 4 - Int.fdiv yoe 100 + doy
  era * 146097 + doe - 719468

/-- Seconds from the epoch of a `datetime`; Python `datetime`
comparison and subtraction agree with comparison and subtraction of
this count. -/
def toSeconds (t : PyDateTime) : Int :=
  daysFromCivil t.year t.month t.day * 86400 +
    t.hour * 3600 + t.minute * 60 + t.second

/-- `term_index(ts, start)`: `int((ts - start).total_seconds() // (7*24*60*60))`
(floor division). -/
def term_index (ts start : PyDateTime) : Int :=
  Int.fdiv (toSeconds ts - toSeconds start) (7 * 24 * 60 * 60)

/-- `datetime(y, 4, 1, 0, 0, 0)`. -/
def aprilFirst (y : Int) : PyDateTime := ⟨y, 4, 1, 0, 0, 0⟩

/-- `term_start_from_timestamp(ts)`. -/
def term_start_from_timestamp (ts : PyDateTime) : PyDateTime :=
  let start := aprilFirst ts.year
  if toSeconds ts < toSeconds start then aprilFirst (ts.year - 1) else start

/-! ### The per-run loop of `main` (lines 377-394) -/

/-- The person ids an accepted row contributes to the ineligibility
set: the applicant id, and the partner id when present. -/
def rowIds (r : Row) : List String :=
  r.appId :: (if r.parId ≠ "" then [r.parId] else [])

/-- All person ids of a term's accepted rows. -/
def acceptedIds (rows : List Row) : List String :=
  rows.flatMap rowIds

/-- Lines 391-394: after a term is processed, add the applicant id and
(nonempty) partner id of each accepted row to the ineligibility set.
The set is modelled as a list used only through membership. -/
def updateIneligible (inel : List String) (rows : List Row) : List String :=
  rows.foldl
    (fun acc r =>
      let acc1 := acc ++ [r.appId]
      if r.parId ≠ "" then acc1 ++ [r.parId] else acc1)
    inel

/-- Result of one iteration of the term loop. -/
structure TermResult where
  term : Int
  apps : List Submission
  pars : List Submission
  rows : List Row
deriving DecidableEq, Repr

/-- One iteration of the term loop (lines 382-394): filter the term's
submissions, process them, then extend the ineligibility set from the
accepted rows. -/
def runStep (apps pars : List Submission) (inel : List String) (t : Int) :
    TermResult × List String :=
  let res := process_term (apps.filter (fun s => s.term == t))
    (pars.filter (fun s => s.term == t)) inel
  (⟨t, res.1, res.2.1, res.2.2⟩, updateIneligible inel res.2.2)

/-- The term loop over a list of term indices, threading the
ineligibility set. -/
def runTermsFrom (apps pars : List Submission) (inel : List String) :
    List Int → List TermResult × List String
  | [] => ([], inel)
  | t :: ts =>
    let step := runStep apps pars inel t
    let rest := runTermsFrom apps pars step.2 ts
    (step.1 :: rest.1, rest.2)

/-- The ineligibility set as it stands before the `k`-th iteration of
the loop. -/
def inelBefore (apps pars : List Submission) (inel : List String) :
    List Int → Nat → List String
  | _, 0 => inel
  | [], _ + 1 => inel
  | t :: ts, k + 1 =>
    inelBefore apps pars (runStep apps pars inel t).2 ts k

/-- `max([s.term for s in apps + pars])`; in a run every term index is
`≥ 0` (the anchor is at or before the earliest timestamp) and the list
is nonempty, where this `foldl` agrees with Python's `max`. -/
def maxTermOf (apps pars : List Submission) : Int :=
  ((apps ++ pars).map (·.term)).foldl max 0

/-- `for term in range(max_term + 1)`. -/
def termRange (apps pars : List Submission) : List Int :=
  (List.range (maxTermOf apps pars + 1).toNat).map Int.ofNat

/-- The whole per-run loop of `main`: process terms `0, 1, ...,
max_term` in order, starting from an empty ineligibility set. -/
def runMain (apps pars : List Submission) : List TermResult × List String :=
  runTermsFrom apps pars [] (termRange apps pars)

/-! ### Models of claim wordings, for comparison with the code -/

/-- Modelled from the claim's words (C1): a 6-digit code beginning
with `15`, or a 6-digit code whose first character is `4`, `5`, `6` or
`1` and whose second character is a digit `1`-`6`. -/
def claimedStudentId (s : String) : Bool :=
  match s.data with
  | [c0, c1, c2, c3, c4, c5] =>
    ([c0, c1, c2, c3, c4, c5].all Char.isDigit) &&
      ((c0 = '1' && c1 = '5') ||
        ((c0 = '4' || c0 = '5' || c0 = '6' || c0 = '1') && ('1' ≤ c1 && c1 ≤ '6')))
  | _ => false

/-- A seven-character student code: `15` followed by five digits, or
`4`/`8`, then a digit `1`-`6`, then five digits (the corrected reading
of the id regular expression). -/
def studentCode7 (t : List Char) : Prop :=
  ∃ c0 c1 ds, t = c0 :: c1 :: ds ∧ ds.length = 5 ∧ ds.all Char.isDigit = true ∧
    ((c0 = '1' ∧ c1 = '5') ∨ ((c0 = '4' ∨ c0 = '8') ∧ '1' ≤ c1 ∧ c1 ≤ '6'))

/-- The value selected by `parse_floor`: the nonempty one of the two
stripped fields. -/
def floorSource (fa fb : String) : String :=
  if pyStrip fa ≠ "" then pyStrip fa else pyStrip fb

/-- The string `parse_floor` hands to `int(...)`: the selected value
with every `'階'` removed when it ends with `'階'`. -/
def floorDigits (fa fb : String) : String :=
  if pyEndsWithChar (floorSource fa fb) '階' then pyRemoveChar (floorSource fa fb) '階'
  else floorSource fa fb

/-- Modelled from the claim's words (C7): as `parse_floor`, but
stripping only a single trailing `'階'` instead of every occurrence. -/
def floorPreferenceClaimed (fa fb : String) : Option Int :=
  let a := pyStrip fa
  let b := pyStrip fb
  if (a ≠ "" ∧ b ≠ "") ∨ (a = "" ∧ b = "") then none
  else
    let value := if a ≠ "" then a else b
    let value := if pyEndsWithChar value '階' then ⟨value.data.dropLast⟩ else value
    match pyParseInt value with
    | none => none
    | some floor => if floor < 2 ∨ 6 < floor then none else some floor

/-! ### Concrete submissions used in witnesses and counterexamples -/

/-- A fully valid applicant without partner, floor 4, term 0. -/
def exSolo : Submission :=
  { role := "app", row_index := 0, timestamp := 0, term := 0,
    person_id := "1512345", person_name := "Alice", photo := "accept",
    consent := CONSENT_OK, has_partner := WITHOUT_PARTNER, floor := some 4 }

/-- The same person resubmitting in term 1 with an invalid consent
field. -/
def exResub : Submission :=
  { exSolo with
    row_index := 1, term := 1, timestamp := 604800, consent := "x" }

/-- The same person resubmitting in term 1, fully valid. -/
def exResubClean : Submission :=
  { exSolo with
    row_index := 1, term := 1, timestamp := 604800 }

/-- A valid partner submission. -/
def exParP : Submission :=
  { role := "par", row_index := 0, timestamp := 50, term := 0,
    person_id := "4112345", person_name := "Pat", photo := "accept",
    consent := CONSENT_OK }

/-- A valid applicant requesting partner `exParP`, earlier timestamp. -/
def exAppA : Submission :=
  { exSolo with
    timestamp := 100, has_partner := WITH_PARTNER,
    partner_id := "4112345", partner_name := "Pat", floor := some 2 }

/-- A valid applicant requesting the same partner, later timestamp. -/
def exAppB : Submission :=
  { exSolo with
    row_index := 1, person_id := "1598765", person_name := "Bob",
    timestamp := 200, has_partner := WITH_PARTNER,
    partner_id := "4112345", partner_name := "Pat", floor := some 3 }

/-- Two submissions by one person with equal timestamps and sequence
indices 0 and 1. -/
def exDupA : Submission := { exSolo with row_index := 0, timestamp := 100 }

/-- See `exDupA`. -/
def exDupB : Submission := { exSolo with row_index := 1, timestamp := 100 }

/-! ## Sorting and selection lemmas -/

theorem sortSubs_perm (l : List Submission) : (sortSubs l).Perm l :=
  List.perm_insertionSort subLe l

theorem sortSubs_sorted (l : List Submission) : List.Sorted subLe (sortSubs l) :=
  List.sorted_insertionSort subLe l

theorem subLe_refl (s : Submission) : subLe s s := by
  simp [subLe, subLE]

/-- A successful `partner_by_id` lookup returns a partner candidate
with the looked-up id. -/
theorem partnerLookup_some (parC : List Submission) (pid : String) (p : Submission)
    (h : partnerLookup parC pid = some p) : p ∈ parC ∧ p.person_id = pid := by
  rw [partnerLookup] at h
  obtain ⟨ys, hys⟩ := List.getLast?_eq_some_iff.mp h
  have hp : p ∈ parC.filter (fun q => q.person_id == pid) := by
    rw [hys]; simp
  rcases List.mem_filter.mp hp with ⟨h1, h2⟩
  exact ⟨h1, by simpa using h2⟩

theorem choose_latest_kept_sub (c : List Submission) :
    ∀ x ∈ (choose_latest_by_person c).1, x ∈ c := by
  intro x hx
  simp only [choose_latest_by_person, List.mem_filterMap, List.mem_map] at hx
  obtain ⟨g, ⟨pid, hpid, rfl⟩, hg⟩ := hx
  obtain ⟨ys, hys⟩ := List.getLast?_eq_some_iff.mp hg
  have hxs : x ∈ sortSubs (c.filter (fun s => s.person_id == pid)) := by
    rw [hys]; simp
  have hxf := (sortSubs_perm _).mem_iff.mp hxs
  exact (List.mem_filter.mp hxf).1

theorem choose_latest_dropped_sub (c : List Submission) :
    ∀ x ∈ (choose_latest_by_person c).2, x ∈ c := by
  intro x hx
  simp only [choose_latest_by_person, List.mem_flatMap, List.mem_map] at hx
  obtain ⟨g, ⟨pid, hpid, rfl⟩, hg⟩ := hx
  have hxs : x ∈ sortSubs (c.filter (fun s => s.person_id == pid)) :=
    (List.dropLast_sublist _).subset hg
  have hxf := (sortSubs_perm _).mem_iff.mp hxs
  exact (List.mem_filter.mp hxf).1

/-! ## Helper lemmas: the stages only touch the `error` field -/

theorem validateStage_eq (s : Submission) :
    validateStage s = { s with error := apply_input_validation s } := rfl

theorem partnerExistsStage_eq (ids : List String) (s : Submission) :
    partnerExistsStage ids s = s ∨
      partnerExistsStage ids s = { s with error := some "E1" } := by
  unfold partnerExistsStage; split
  · exact Or.inr rfl
  · exact Or.inl rfl

theorem e2Stage_eq (ids : List String) (s : Submission) :
    e2Stage ids s = s ∨ e2Stage ids s = { s with error := some "E2" } := by
  unfold e2Stage; split
  · exact Or.inr rfl
  · exact Or.inl rfl

theorem markE3_eq (ks : List SubKey) (s : Submission) :
    markE3 ks s = s ∨ markE3 ks s = { s with error := some "E3" } := by
  unfold markE3; split
  · exact Or.inr rfl
  · exact Or.inl rfl

theorem classifyStage_eq (ids : List String) (s : Submission) :
    classifyStage ids s = s ∨ classifyStage ids s = { s with error := some "S0" } ∨
      classifyStage ids s = { s with error := some "E3" } := by
  unfold classifyStage; split
  · exact Or.inr (Or.inl rfl)
  · split
    · exact Or.inr (Or.inr rfl)
    · exact Or.inl rfl

/-- `apply_input_validation` does not read the `error` field. -/
theorem apply_input_validation_set_error (s : Submission) (e : Option String) :
    apply_input_validation { s with error := e } = apply_input_validation s := rfl

/-- `subId` does not read the `error` field. -/
theorem subId_set_error (s : Submission) (e : Option String) :
    subId { s with error := e } = subId s := rfl

/-- Once some outcome code is set, no stage changes it. -/
theorem stages_preserve_error (ids : List String) (ks : List SubKey)
    (s : Submission) (c : String) (h : s.error = some c) :
    (partnerExistsStage ids s).error = some c ∧ (e2Stage ids s).error = some c ∧
      (markE3 ks s).error = some c ∧ (classifyStage ids s).error = some c := by
  refine ⟨?_, ?_, ?_, ?_⟩
  · unfold partnerExistsStage; split
    · next hc => exact absurd h (by simp [hc.1])
    · exact h
  · unfold e2Stage; split
    · next hc => exact absurd h (by simp [hc.1])
    · exact h
  · unfold markE3; split
    · next hc => exact absurd h (by simp [hc.2])
    · exact h
  · unfold classifyStage; split
    · next hc => exact absurd h (by simp [hc.1])
    · split
      · next hc => exact absurd h (by simp [hc])
      · exact h

/-- The only code `apply_input_validation` produces is `"E1"`. -/
theorem apply_input_validation_cases (s : Submission) :
    apply_input_validation s = none ∨ apply_input_validation s = some "E1" := by
  unfold apply_input_validation
  by_cases h1 : s.person_id = "" ∨ s.person_name = ""
  · rw [if_pos h1]; exact Or.inr rfl
  rw [if_neg h1]
  by_cases h2 : ¬ is_valid_student_id s.person_id
  · rw [if_pos h2]; exact Or.inr rfl
  rw [if_neg h2]
  by_cases h3 : s.consent ≠ CONSENT_OK
  · rw [if_pos h3]; exact Or.inr rfl
  rw [if_neg h3]
  by_cases h4 : s.photo ≠ PHOTO_OK
  · rw [if_pos h4]; exact Or.inr rfl
  rw [if_neg h4]
  by_cases h5 : s.role = "app"
  case neg => rw [if_neg h5]; exact Or.inl rfl
  rw [if_pos h5]
  by_cases h6 : s.has_partner ≠ WITH_PARTNER ∧ s.has_partner ≠ WITHOUT_PARTNER
  · rw [if_pos h6]; exact Or.inr rfl
  rw [if_neg h6]
  by_cases h7 : s.floor = none
  · rw [if_pos h7]; exact Or.inr rfl
  rw [if_neg h7]
  by_cases h8 : (s.floor = some 2 ∨ s.floor = some 3) ∧ s.has_partner ≠ WITH_PARTNER
  · rw [if_pos h8]; exact Or.inr rfl
  rw [if_neg h8]
  by_cases h9 : s.has_partner = WITH_PARTNER
  · rw [if_pos h9]
    by_cases h10 : s.partner_id = "" ∨ s.partner_name = ""
    · rw [if_pos h10]; exact Or.inr rfl
    rw [if_neg h10]
    by_cases h11 : ¬ is_valid_student_id s.partner_id
    · rw [if_pos h11]; exact Or.inr rfl
    · rw [if_neg h11]; exact Or.inl rfl
  · rw [if_neg h9]
    by_cases h12 : s.partner_id ≠ "" ∨ s.partner_name ≠ ""
    · rw [if_pos h12]; exact Or.inr rfl
    · rw [if_neg h12]; exact Or.inl rfl

/-- What passing validation guarantees about a submission's fields. -/
theorem apply_input_validation_none (s : Submission)
    (h : apply_input_validation s = none) :
    s.person_id ≠ "" ∧ s.person_name ≠ "" ∧ is_valid_student_id s.person_id = true ∧
      s.consent = CONSENT_OK ∧ s.photo = PHOTO_OK ∧
      (s.role = "app" →
        (s.has_partner = WITH_PARTNER ∨ s.has_partner = WITHOUT_PARTNER) ∧
        s.floor ≠ none ∧
        ((s.floor = some 2 ∨ s.floor = some 3) → s.has_partner = WITH_PARTNER) ∧
        (s.has_partner = WITH_PARTNER →
          s.partner_id ≠ "" ∧ s.partner_name ≠ "" ∧
            is_valid_student_id s.partner_id = true) ∧
        (s.has_partner ≠ WITH_PARTNER → s.partner_id = "" ∧ s.partner_name = "")) := by
  unfold apply_input_validation at h
  by_cases h1 : s.person_id = "" ∨ s.person_name = ""
  · rw [if_pos h1] at h; exact absurd h (by simp)
  rw [if_neg h1] at h
  by_cases h2 : ¬ is_valid_student_id s.person_id
  · rw [if_pos h2] at h; exact absurd h (by simp)
  rw [if_neg h2] at h
  by_cases h3 : s.consent ≠ CONSENT_OK
  · rw [if_pos h3] at h; exact absurd h (by simp)
  rw [if_neg h3] at h
  by_cases h4 : s.photo ≠ PHOTO_OK
  · rw [if_pos h4] at h; exact absurd h (by simp)
  rw [if_neg h4] at h
  push_neg at h1 h3 h4
  refine ⟨h1.1, h1.2, by simpa using h2, h3, h4, ?_⟩
  intro h5
  rw [if_pos h5] at h
  by_cases h6 : s.has_partner ≠ WITH_PARTNER ∧ s.has_partner ≠ WITHOUT_PARTNER
  · rw [if_pos h6] at h; exact absurd h (by simp)
  rw [if_neg h6] at h
  by_cases h7 : s.floor = none
  · rw [if_pos h7] at h; exact absurd h (by simp)
  rw [if_neg h7] at h
  by_cases h8 : (s.floor = some 2 ∨ s.floor = some 3) ∧ s.has_partner ≠ WITH_PARTNER
  · rw [if_pos h8] at h; exact absurd h (by simp)
  rw [if_neg h8] at h
  refine ⟨by tauto, h7, by tauto, ?_, ?_⟩
  · intro h9
    rw [if_pos h9] at h
    by_cases h10 : s.partner_id = "" ∨ s.partner_name = ""
    · rw [if_pos h10] at h; exact absurd h (by simp)
    rw [if_neg h10] at h
    by_cases h11 : ¬ is_valid_student_id s.partner_id
    · rw [if_pos h11] at h; exact absurd h (by simp)
    · push_neg at h10
      exact ⟨h10.1, h10.2, by simpa using h11⟩
  · intro h9
    rw [if_neg h9] at h
    by_cases h12 : s.partner_id ≠ "" ∨ s.partner_name ≠ ""
    · rw [if_pos h12] at h; exact absurd h (by simp)
    · push_neg at h12
      exact h12

/-! ## Closed-set lemmas for the outcome codes -/

theorem errPre_validateStage (s : Submission) :
    (validateStage s).error = none ∨ (validateStage s).error = some "E1" :=
  apply_input_validation_cases s

theorem errPre_partnerExistsStage (ids : List String) (s : Submission)
    (h : s.error = none ∨ s.error = some "E1" ∨ s.error = some "E2" ∨
      s.error = some "E3") :
    (partnerExistsStage ids s).error = none ∨ (partnerExistsStage ids s).error = some "E1" ∨
      (partnerExistsStage ids s).error = some "E2" ∨
      (partnerExistsStage ids s).error = some "E3" := by
  rcases partnerExistsStage_eq ids s with he | he <;> rw [he]
  · exact h
  · exact Or.inr (Or.inl rfl)

theorem errPre_e2Stage (ids : List String) (s : Submission)
    (h : s.error = none ∨ s.error = some "E1" ∨ s.error = some "E2" ∨
      s.error = some "E3") :
    (e2Stage ids s).error = none ∨ (e2Stage ids s).error = some "E1" ∨
      (e2Stage ids s).error = some "E2" ∨ (e2Stage ids s).error = some "E3" := by
  rcases e2Stage_eq ids s with he | he <;> rw [he]
  · exact h
  · exact Or.inr (Or.inr (Or.inl rfl))

theorem errPre_markE3 (ks : List SubKey) (s : Submission)
    (h : s.error = none ∨ s.error = some "E1" ∨ s.error = some "E2" ∨
      s.error = some "E3") :
    (markE3 ks s).error = none ∨ (markE3 ks s).error = some "E1" ∨
      (markE3 ks s).error = some "E2" ∨ (markE3 ks s).error = some "E3" := by
  rcases markE3_eq ks s with he | he <;> rw [he]
  · exact h
  · exact Or.inr (Or.inr (Or.inr rfl))

theorem classifyStage_closed (ids : List String) (s : Submission)
    (h : s.error = none ∨ s.error = some "E1" ∨ s.error = some "E2" ∨
      s.error = some "E3") :
    (classifyStage ids s).error = some "S0" ∨ (classifyStage ids s).error = some "E1" ∨
      (classifyStage ids s).error = some "E2" ∨
      (classifyStage ids s).error = some "E3" := by
  unfold classifyStage
  split
  · exact Or.inl rfl
  · split
    · exact Or.inr (Or.inr (Or.inr rfl))
    · next h1 h2 =>
      rcases h with h | h
      · exact absurd h h2
      · tauto

/-- Every element of `apps` after the fifth pass carries `none` or one
of the three rejection codes. -/
theorem pt_apps5_errPre (apps pars : List Submission) (inel : List String) :
    ∀ s ∈ pt_apps5 apps pars inel,
      s.error = none ∨ s.error = some "E1" ∨ s.error = some "E2" ∨
        s.error = some "E3" := by
  intro s hs
  rw [pt_apps5, List.mem_map] at hs
  obtain ⟨s4, hs4, rfl⟩ := hs
  rw [pt_apps4, List.mem_map] at hs4
  obtain ⟨s3, hs3, rfl⟩ := hs4
  rw [pt_apps3, List.mem_map] at hs3
  obtain ⟨s2, hs2, rfl⟩ := hs3
  rw [pt_apps2, List.mem_map] at hs2
  obtain ⟨s1, hs1, rfl⟩ := hs2
  rw [pt_apps1, List.mem_map] at hs1
  obtain ⟨s0, hs0, rfl⟩ := hs1
  exact errPre_markE3 _ _ (errPre_markE3 _ _ (errPre_e2Stage _ _
    (errPre_partnerExistsStage _ _ (Or.imp_right Or.inl (errPre_validateStage s0)))))

/-- Every element of `pars` after the fifth pass carries `none` or one
of the three rejection codes. -/
theorem pt_pars5_errPre (apps pars : List Submission) (inel : List String) :
    ∀ s ∈ pt_pars5 apps pars inel,
      s.error = none ∨ s.error = some "E1" ∨ s.error = some "E2" ∨
        s.error = some "E3" := by
  intro s hs
  rw [pt_pars5, List.mem_map] at hs
  obtain ⟨s4, hs4, rfl⟩ := hs
  rw [pt_pars4, List.mem_map] at hs4
  obtain ⟨s3, hs3, rfl⟩ := hs4
  rw [pt_pars3, List.mem_map] at hs3
  obtain ⟨s1, hs1, rfl⟩ := hs3
  rw [pt_pars1, List.mem_map] at hs1
  obtain ⟨s0, hs0, rfl⟩ := hs1
  exact errPre_markE3 _ _ (errPre_markE3 _ _ (errPre_e2Stage _ _
    (Or.imp_right Or.inl (errPre_validateStage s0))))

/-! ## C6: exactly one outcome code per submission -/

/-- C6: after a term is processed, every submission of the term (both
roles) carries an outcome code from the closed set
`{S0, E1, E2, E3}`, and no stage of the pipeline ever changes an
outcome code that has already been assigned (in particular a
submission set to `S0` is never overwritten). -/
theorem c6_single_final_outcome (apps pars : List Submission) (inel : List String) :
    (∀ s ∈ (process_term apps pars inel).1 ++ (process_term apps pars inel).2.1,
        s.error = some "S0" ∨ s.error = some "E1" ∨ s.error = some "E2" ∨
          s.error = some "E3") ∧
    (∀ (ids : List String) (ks : List SubKey) (s : Submission) (c : String),
        s.error = some c →
          (partnerExistsStage ids s).error = some c ∧ (e2Stage ids s).error = some c ∧
            (markE3 ks s).error = some c ∧ (classifyStage ids s).error = some c) := by
  constructor
  · intro s hs
    rw [List.mem_append] at hs
    rcases hs with hs | hs
    · rw [show (process_term apps pars inel).1 =
          (pt_apps5 apps pars inel).map
            (classifyStage (pt_valid_app_ids apps pars inel)) from rfl,
        List.mem_map] at hs
      obtain ⟨x, hx, rfl⟩ := hs
      exact classifyStage_closed _ _ (pt_apps5_errPre apps pars inel x hx)
    · rw [show (process_term apps pars inel).2.1 =
          (pt_pars5 apps pars inel).map
            (classifyStage (pt_valid_par_ids apps pars inel)) from rfl,
        List.mem_map] at hs
      obtain ⟨x, hx, rfl⟩ := hs
      exact classifyStage_closed _ _ (pt_pars5_errPre apps pars inel x hx)
  · exact fun ids ks s c h => stages_preserve_error ids ks s c h

/-- Witness for C6 on a concrete term. -/
theorem c6_single_final_outcome_witness :
    ({ exSolo with error := some "S0" } : Submission).error = some "S0" ∨
      ({ exSolo with error := some "S0" } : Submission).error = some "E1" ∨
      ({ exSolo with error := some "S0" } : Submission).error = some "E2" ∨
      ({ exSolo with error := some "S0" } : Submission).error = some "E3" :=
  (c6_single_final_outcome [exSolo] [] []).1 { exSolo with error := some "S0" }
    (by decide)

/-! ## Field preservation through the stages -/

theorem subId_validateStage (s : Submission) : subId (validateStage s) = subId s := rfl

theorem subId_partnerExistsStage (ids : List String) (s : Submission) :
    subId (partnerExistsStage ids s) = subId s := by
  rcases partnerExistsStage_eq ids s with he | he <;> rw [he] <;> rfl

theorem subId_e2Stage (ids : List String) (s : Submission) :
    subId (e2Stage ids s) = subId s := by
  rcases e2Stage_eq ids s with he | he <;> rw [he] <;> rfl

theorem subId_markE3 (ks : List SubKey) (s : Submission) :
    subId (markE3 ks s) = subId s := by
  rcases markE3_eq ks s with he | he <;> rw [he] <;> rfl

theorem subId_classifyStage (ids : List String) (s : Submission) :
    subId (classifyStage ids s) = subId s := by
  rcases classifyStage_eq ids s with he | he | he <;> rw [he] <;> rfl

theorem person_id_validateStage (s : Submission) :
    (validateStage s).person_id = s.person_id := rfl

theorem person_id_partnerExistsStage (ids : List String) (s : Submission) :
    (partnerExistsStage ids s).person_id = s.person_id := by
  rcases partnerExistsStage_eq ids s with he | he <;> rw [he] <;> rfl

theorem person_id_e2Stage (ids : List String) (s : Submission) :
    (e2Stage ids s).person_id = s.person_id := by
  rcases e2Stage_eq ids s with he | he <;> rw [he] <;> rfl

theorem person_id_markE3 (ks : List SubKey) (s : Submission) :
    (markE3 ks s).person_id = s.person_id := by
  rcases markE3_eq ks s with he | he <;> rw [he] <;> rfl

theorem person_id_classifyStage (ids : List String) (s : Submission) :
    (classifyStage ids s).person_id = s.person_id := by
  rcases classifyStage_eq ids s with he | he | he <;> rw [he] <;> rfl

theorem floor_validateStage (s : Submission) : (validateStage s).floor = s.floor := rfl

theorem floor_partnerExistsStage (ids : List String) (s : Submission) :
    (partnerExistsStage ids s).floor = s.floor := by
  rcases partnerExistsStage_eq ids s with he | he <;> rw [he] <;> rfl

theorem floor_e2Stage (ids : List String) (s : Submission) :
    (e2Stage ids s).floor = s.floor := by
  rcases e2Stage_eq ids s with he | he <;> rw [he] <;> rfl

theorem floor_markE3 (ks : List SubKey) (s : Submission) :
    (markE3 ks s).floor = s.floor := by
  rcases markE3_eq ks s with he | he <;> rw [he] <;> rfl

/-! ## E2 propagation through `process_term` (for C2) -/

/-- The partner-id index of a term only renames `pars` through
`validateStage`, which fixes `person_id`. -/
theorem pt_all_partner_ids_eq (pars : List Submission) :
    pt_all_partner_ids pars =
      (pars.filter (fun p => p.person_id ≠ "")).map (·.person_id) := by
  rw [pt_all_partner_ids, pt_pars1, List.filter_map, List.map_map]
  rfl

/-- A clean applicant submission of an ineligible person comes out of
`process_term` with code `"E2"`. -/
theorem process_term_app_E2 (apps pars : List Submission) (inel : List String)
    (s : Submission) (hs : s ∈ apps)
    (hv : apply_input_validation s = none)
    (hp : s.has_partner = WITH_PARTNER →
      s.partner_id ∈ (pars.filter (fun p => p.person_id ≠ "")).map (·.person_id))
    (hin : s.person_id ∈ inel) :
    ∃ s' ∈ (process_term apps pars inel).1,
      subId s' = subId s ∧ s'.person_id = s.person_id ∧ s'.error = some "E2" := by
  have hx2 : partnerExistsStage (pt_all_partner_ids pars) (validateStage s) =
      validateStage s := by
    unfold partnerExistsStage
    rw [if_neg]
    rintro ⟨-, h2, h3⟩
    rw [pt_all_partner_ids_eq] at h3
    exact h3 (hp h2)
  have hx3 : e2Stage inel (validateStage s) =
      { validateStage s with error := some "E2" } := by
    unfold e2Stage
    rw [if_pos ⟨hv, hin⟩]
  refine ⟨classifyStage (pt_valid_app_ids apps pars inel)
    (markE3 (pt_needKeys apps pars inel ++ pt_loserKeys apps pars inel ++
        (pt_emitted apps pars inel).dead)
      (markE3 (pt_droppedKeys apps pars inel)
        (e2Stage inel (partnerExistsStage (pt_all_partner_ids pars) (validateStage s))))),
    ?_, ?_, ?_, ?_⟩
  · show _ ∈ (pt_apps5 apps pars inel).map (classifyStage _)
    refine List.mem_map_of_mem _ ?_
    rw [pt_apps5]
    refine List.mem_map_of_mem _ ?_
    rw [pt_apps4]
    refine List.mem_map_of_mem _ ?_
    rw [pt_apps3]
    refine List.mem_map_of_mem _ ?_
    rw [pt_apps2]
    refine List.mem_map_of_mem _ ?_
    rw [pt_apps1]
    exact List.mem_map_of_mem _ hs
  · rw [subId_classifyStage, subId_markE3, subId_markE3, subId_e2Stage,
      subId_partnerExistsStage, subId_validateStage]
  · rw [person_id_classifyStage, person_id_markE3, person_id_markE3, person_id_e2Stage,
      person_id_partnerExistsStage, person_id_validateStage]
  · rw [hx2, hx3]
    have h2 : ({ validateStage s with error := some "E2" } : Submission).error =
        some "E2" := rfl
    have h3 := stages_preserve_error (pt_valid_app_ids apps pars inel)
      (pt_droppedKeys apps pars inel) _ _ h2
    have h4 := stages_preserve_error (pt_valid_app_ids apps pars inel)
      (pt_needKeys apps pars inel ++ pt_loserKeys apps pars inel ++
        (pt_emitted apps pars inel).dead) _ _ h3.2.2.1
    exact (stages_preserve_error (pt_valid_app_ids apps pars inel) [] _ _
      h4.2.2.1).2.2.2

/-- A clean partner submission of an ineligible person comes out of
`process_term` with code `"E2"`. -/
theorem process_term_par_E2 (apps pars : List Submission) (inel : List String)
    (s : Submission) (hs : s ∈ pars)
    (hv : apply_input_validation s = none)
    (hin : s.person_id ∈ inel) :
    ∃ s' ∈ (process_term apps pars inel).2.1,
      subId s' = subId s ∧ s'.person_id = s.person_id ∧ s'.error = some "E2" := by
  have hx3 : e2Stage inel (validateStage s) =
      { validateStage s with error := some "E2" } := by
    unfold e2Stage
    rw [if_pos ⟨hv, hin⟩]
  refine ⟨classifyStage (pt_valid_par_ids apps pars inel)
    (markE3 (pt_parUnpairedKeys apps pars inel)
      (markE3 (pt_droppedKeys apps pars inel) (e2Stage inel (validateStage s)))),
    ?_, ?_, ?_, ?_⟩
  · show _ ∈ (pt_pars5 apps pars inel).map (classifyStage _)
    refine List.mem_map_of_mem _ ?_
    rw [pt_pars5]
    refine List.mem_map_of_mem _ ?_
    rw [pt_pars4]
    refine List.mem_map_of_mem _ ?_
    rw [pt_pars3]
    refine List.mem_map_of_mem _ ?_
    rw [pt_pars1]
    exact List.mem_map_of_mem _ hs
  · rw [subId_classifyStage, subId_markE3, subId_markE3, subId_e2Stage,
      subId_validateStage]
  · rw [person_id_classifyStage, person_id_markE3, person_id_markE3, person_id_e2Stage,
      person_id_validateStage]
  · rw [hx3]
    have h2 : ({ validateStage s with error := some "E2" } : Submission).error =
        some "E2" := rfl
    have h3 := stages_preserve_error (pt_valid_par_ids apps pars inel)
      (pt_droppedKeys apps pars inel) _ _ h2
    have h4 := stages_preserve_error (pt_valid_par_ids apps pars inel)
      (pt_parUnpairedKeys apps pars inel) _ _ h3.2.2.1
    exact (stages_preserve_error (pt_valid_par_ids apps pars inel) [] _ _
      h4.2.2.1).2.2.2

/-! ## The term loop (for C2 and C8) -/

theorem runStep_snd (apps pars : List Submission) (inel : List String) (t : Int) :
    (runStep apps pars inel t).2 =
      updateIneligible inel (runStep apps pars inel t).1.rows := rfl

theorem inelBefore_nil (apps pars : List Submission) (inel : List String) (k : Nat) :
    inelBefore apps pars inel [] k = inel := by
  cases k <;> rfl

theorem inelBefore_zero (apps pars : List Submission) (inel : List String)
    (ts : List Int) : inelBefore apps pars inel ts 0 = inel := by
  cases ts <;> rfl

theorem inelBefore_cons_succ (apps pars : List Submission) (inel : List String)
    (t0 : Int) (ts : List Int) (k : Nat) :
    inelBefore apps pars inel (t0 :: ts) (k + 1) =
      inelBefore apps pars (runStep apps pars inel t0).2 ts k := by
  simp only [inelBefore]

theorem runTermsFrom_length (apps pars : List Submission) :
    ∀ (ts : List Int) (inel : List String),
      (runTermsFrom apps pars inel ts).1.length = ts.length := by
  intro ts
  induction ts with
  | nil => intro inel; rfl
  | cons t ts ih => intro inel; simp [runTermsFrom, ih]

/-- The `k`-th result of the loop is the `k`-th term processed against
the ineligibility set standing before iteration `k`. -/
theorem runTermsFrom_getElem (apps pars : List Submission) :
    ∀ (ts : List Int) (inel : List String) (k : Nat) (t : Int), ts[k]? = some t →
      ((runTermsFrom apps pars inel ts).1)[k]? =
        some (runStep apps pars (inelBefore apps pars inel ts k) t).1 := by
  intro ts
  induction ts with
  | nil => intro inel k t ht; simp at ht
  | cons t0 ts ih =>
    intro inel k t ht
    cases k with
    | zero =>
      simp only [List.getElem?_cons_zero, Option.some.injEq] at ht
      subst ht
      show ((runStep apps pars inel t0).1 ::
        (runTermsFrom apps pars (runStep apps pars inel t0).2 ts).1)[0]? =
        some (runStep apps pars (inelBefore apps pars inel (t0 :: ts) 0) t0).1
      rw [List.getElem?_cons_zero]
      rfl
    | succ k =>
      simp only [List.getElem?_cons_succ] at ht
      show ((runStep apps pars inel t0).1 ::
        (runTermsFrom apps pars (runStep apps pars inel t0).2 ts).1)[k + 1]? = _
      rw [List.getElem?_cons_succ]
      exact ih (runStep apps pars inel t0).2 k t ht

/-- The ineligibility set before iteration `k + 1` is the set before
iteration `k` extended by the accepted rows of iteration `k` — it is
written exactly once per term, after that term's rows are final. -/
theorem inelBefore_succ (apps pars : List Submission) :
    ∀ (ts : List Int) (inel : List String) (k : Nat) (t : Int), ts[k]? = some t →
      inelBefore apps pars inel ts (k + 1) =
        updateIneligible (inelBefore apps pars inel ts k)
          (runStep apps pars (inelBefore apps pars inel ts k) t).1.rows := by
  intro ts
  induction ts with
  | nil => intro inel k t ht; simp at ht
  | cons t0 ts ih =>
    intro inel k t ht
    cases k with
    | zero =>
      simp only [List.getElem?_cons_zero, Option.some.injEq] at ht
      subst ht
      show inelBefore apps pars (runStep apps pars inel t0).2 ts 0 =
        updateIneligible (inelBefore apps pars inel (t0 :: ts) 0)
          (runStep apps pars (inelBefore apps pars inel (t0 :: ts) 0) t0).1.rows
      rw [inelBefore_zero, inelBefore_zero, runStep_snd]
    | succ k =>
      simp only [List.getElem?_cons_succ] at ht
      simp only [inelBefore_cons_succ]
      exact ih (runStep apps pars inel t0).2 k t ht

/-- Membership in the updated ineligibility set: the old members plus
the applicant and (nonempty) partner ids of the accepted rows. -/
theorem mem_updateIneligible (x : String) :
    ∀ (rows : List Row) (inel : List String),
      (x ∈ updateIneligible inel rows ↔ x ∈ inel ∨ x ∈ acceptedIds rows) := by
  intro rows
  induction rows with
  | nil =>
    intro inel
    simp [updateIneligible, acceptedIds]
  | cons r rows ih =>
    intro inel
    have hstep : updateIneligible inel (r :: rows) =
        updateIneligible (inel ++ rowIds r) rows := by
      show updateIneligible
        (let acc1 := inel ++ [r.appId]
         if r.parId ≠ "" then acc1 ++ [r.parId] else acc1) rows = _
      congr 1
      rw [rowIds]
      split
      · simp
      · simp
    rw [hstep, ih]
    have hacc : acceptedIds (r :: rows) = rowIds r ++ acceptedIds rows := rfl
    rw [hacc, List.mem_append, List.mem_append]
    tauto

/-- The ineligibility set never loses an element as the loop advances. -/
theorem inelBefore_mono (apps pars : List Submission) :
    ∀ (ts : List Int) (inel : List String) (k j : Nat), k ≤ j →
      ∀ x, x ∈ inelBefore apps pars inel ts k → x ∈ inelBefore apps pars inel ts j := by
  intro ts
  induction ts with
  | nil =>
    intro inel k j hkj x hx
    rw [inelBefore_nil] at hx ⊢
    exact hx
  | cons t0 ts ih =>
    intro inel k j hkj x hx
    cases k with
    | zero =>
      rw [inelBefore_zero] at hx
      cases j with
      | zero => rw [inelBefore_zero]; exact hx
      | succ j =>
        rw [inelBefore_cons_succ]
        refine ih (runStep apps pars inel t0).2 0 j (Nat.zero_le j) x ?_
        rw [inelBefore_zero, runStep_snd, mem_updateIneligible]
        exact Or.inl hx
    | succ k =>
      cases j with
      | zero => omega
      | succ j =>
        rw [inelBefore_cons_succ] at hx ⊢
        exact ih (runStep apps pars inel t0).2 k j (Nat.le_of_succ_le_succ hkj) x hx

theorem termRange_getElem (apps pars : List Submission) (k : Nat)
    (hk : k < (termRange apps pars).length) :
    (termRange apps pars)[k]? = some (k : Int) := by
  rw [termRange] at hk ⊢
  rw [List.length_map, List.length_range] at hk
  rw [List.getElem?_map, List.getElem?_range hk]
  rfl

/-! ## C2: ineligibility carryover -/

theorem runStep_apps (apps pars : List Submission) (inel : List String) (t : Int) :
    (runStep apps pars inel t).1.apps =
      (process_term (apps.filter (fun s => s.term == t))
        (pars.filter (fun s => s.term == t)) inel).1 := rfl

theorem runStep_pars (apps pars : List Submission) (inel : List String) (t : Int) :
    (runStep apps pars inel t).1.pars =
      (process_term (apps.filter (fun s => s.term == t))
        (pars.filter (fun s => s.term == t)) inel).2.1 := rfl

theorem runStep_rows (apps pars : List Submission) (inel : List String) (t : Int) :
    (runStep apps pars inel t).1.rows =
      (process_term (apps.filter (fun s => s.term == t))
        (pars.filter (fun s => s.term == t)) inel).2.2 := rfl

/-- C2 (amended): if a person appears in an accepted allocation row of
term `t`, then every submission of that person in a later term `tp`
that passes the Validator — including, for an applicant requiring a
partner, the cross-check that a partner form with that id exists in
term `tp` — is assigned `E2`.  (The original claim without the
validation proviso is refuted by `c2_counterexample`: validation runs
before the ineligibility filter, so an invalid resubmission gets
`E1`.) -/
theorem c2_ineligibility_carryover_amended
    (apps pars : List Submission) (t tp : Nat) (pid : String)
    (r r2 : TermResult) (s : Submission)
    (hr : ((runMain apps pars).1)[t]? = some r)
    (hr2 : ((runMain apps pars).1)[tp]? = some r2)
    (htt : t < tp)
    (hpid : pid ∈ acceptedIds r.rows)
    (hsub : s ∈ apps ∨ s ∈ pars)
    (hterm : s.term = (tp : Int))
    (hid : s.person_id = pid)
    (hv : apply_input_validation s = none)
    (hp : s ∈ apps → s.has_partner = WITH_PARTNER →
      s.partner_id ∈ ((pars.filter (fun p => p.term == (tp : Int))).filter
        (fun p => p.person_id ≠ "")).map (·.person_id)) :
    ∃ s', (s' ∈ r2.apps ∨ s' ∈ r2.pars) ∧ subId s' = subId s ∧
      s'.person_id = pid ∧ s'.error = some "E2" := by
  have hmain : runMain apps pars = runTermsFrom apps pars [] (termRange apps pars) :=
    rfl
  rw [hmain] at hr hr2
  have hts : t < (termRange apps pars).length := by
    obtain ⟨h1, -⟩ := List.getElem?_eq_some_iff.mp hr
    rwa [runTermsFrom_length] at h1
  have htps : tp < (termRange apps pars).length := by
    obtain ⟨h1, -⟩ := List.getElem?_eq_some_iff.mp hr2
    rwa [runTermsFrom_length] at h1
  have hkt := termRange_getElem apps pars t hts
  have hktp := termRange_getElem apps pars tp htps
  have hstep_t := runTermsFrom_getElem apps pars (termRange apps pars) [] t _ hkt
  rw [hr] at hstep_t
  injection hstep_t with hrr
  subst hrr
  have hstep_tp := runTermsFrom_getElem apps pars (termRange apps pars) [] tp _ hktp
  rw [hr2] at hstep_tp
  injection hstep_tp with hrr2
  subst hrr2
  have hpid1 : pid ∈ inelBefore apps pars [] (termRange apps pars) (t + 1) := by
    rw [inelBefore_succ apps pars (termRange apps pars) [] t _ hkt,
      mem_updateIneligible]
    exact Or.inr hpid
  have hpid2 : pid ∈ inelBefore apps pars [] (termRange apps pars) tp :=
    inelBefore_mono apps pars (termRange apps pars) [] (t + 1) tp (by omega) pid hpid1
  have hin : s.person_id ∈ inelBefore apps pars [] (termRange apps pars) tp := by
    rw [hid]; exact hpid2
  rcases hsub with hsapp | hspar
  · have hsf : s ∈ apps.filter (fun x => x.term == (tp : Int)) :=
      List.mem_filter.mpr ⟨hsapp, by simp [hterm]⟩
    obtain ⟨s', hmem, hsub', hpid', herr⟩ := process_term_app_E2
      (apps.filter (fun x => x.term == (tp : Int)))
      (pars.filter (fun x => x.term == (tp : Int)))
      (inelBefore apps pars [] (termRange apps pars) tp) s hsf hv
      (fun hwith => hp hsapp hwith) hin
    refine ⟨s', Or.inl ?_, hsub', by rw [hpid', hid], herr⟩
    rw [runStep_apps]
    exact hmem
  · have hsf : s ∈ pars.filter (fun x => x.term == (tp : Int)) :=
      List.mem_filter.mpr ⟨hspar, by simp [hterm]⟩
    obtain ⟨s', hmem, hsub', hpid', herr⟩ := process_term_par_E2
      (apps.filter (fun x => x.term == (tp : Int)))
      (pars.filter (fun x => x.term == (tp : Int)))
      (inelBefore apps pars [] (termRange apps pars) tp) s hsf hv hin
    refine ⟨s', Or.inr ?_, hsub', by rw [hpid', hid], herr⟩
    rw [runStep_pars]
    exact hmem

/-- C2 counterexample: Alice is accepted in term 0, and resubmits in
term 1 with an invalid consent field; the code assigns `E1` (the
Validator runs before the ineligibility filter), not `E2` as the claim
requires. -/
theorem c2_counterexample :
    (((runMain [exSolo, exResub] []).1)[0]?.map (fun r => acceptedIds r.rows) =
      some ["1512345"]) ∧
    exResub.person_id = "1512345" ∧ exResub.term = 1 ∧
    (((runMain [exSolo, exResub] []).1)[1]?.map
      (fun r => r.apps.map (fun s => s.error)) = some [some "E1"]) := by
  decide

/-- Witness for the amended C2: Alice is accepted in term 0 and
resubmits a fully valid form in term 1; that resubmission is assigned
`E2`. -/
theorem c2_ineligibility_carryover_amended_witness :
    ∃ s', (s' ∈ [({ exResubClean with error := some "E2" } : Submission)] ∨
        s' ∈ ([] : List Submission)) ∧
      subId s' = subId exResubClean ∧ s'.person_id = "1512345" ∧
      s'.error = some "E2" :=
  c2_ineligibility_carryover_amended [exSolo, exResubClean] [] 0 1 "1512345"
    ⟨0, [{ exSolo with error := some "S0" }], [],
      [⟨"1512345", "Alice", "", "", 4⟩]⟩
    ⟨1, [{ exResubClean with error := some "E2" }], [], []⟩ exResubClean
    (by decide) (by decide) (by decide) (by decide) (by decide) (by decide)
    (by decide) (by decide) (by decide)

/-! ## C8: lifecycle of the ineligibility set -/

/-- C8: the `k`-th term is processed against the ineligibility set as
it stood before iteration `k` (the pure call makes mid-term reads of
any later state impossible); the set before iteration `k + 1` is that
set extended exactly by the applicant and (nonempty) partner ids of
iteration `k`'s accepted rows — one write per term, after the rows are
final — and the set never loses an element as the loop advances. -/
theorem c8_ineligibility_set_lifecycle (apps pars : List Submission) (k : Nat)
    (r : TermResult) (hr : ((runMain apps pars).1)[k]? = some r) :
    (r.apps, r.pars, r.rows) =
      process_term (apps.filter (fun s => s.term == (k : Int)))
        (pars.filter (fun s => s.term == (k : Int)))
        (inelBefore apps pars [] (termRange apps pars) k) ∧
    inelBefore apps pars [] (termRange apps pars) (k + 1) =
      updateIneligible (inelBefore apps pars [] (termRange apps pars) k) r.rows ∧
    (∀ x, x ∈ inelBefore apps pars [] (termRange apps pars) (k + 1) ↔
      x ∈ inelBefore apps pars [] (termRange apps pars) k ∨
        x ∈ acceptedIds r.rows) ∧
    (∀ j, k ≤ j → ∀ x, x ∈ inelBefore apps pars [] (termRange apps pars) k →
      x ∈ inelBefore apps pars [] (termRange apps pars) j) := by
  have hmain : runMain apps pars = runTermsFrom apps pars [] (termRange apps pars) :=
    rfl
  rw [hmain] at hr
  have hks : k < (termRange apps pars).length := by
    obtain ⟨h1, -⟩ := List.getElem?_eq_some_iff.mp hr
    rwa [runTermsFrom_length] at h1
  have hkk := termRange_getElem apps pars k hks
  have hstep := runTermsFrom_getElem apps pars (termRange apps pars) [] k _ hkk
  rw [hr] at hstep
  injection hstep with hrr
  subst hrr
  refine ⟨?_, ?_, ?_, ?_⟩
  · rw [runStep_apps, runStep_pars, runStep_rows]
  · rw [inelBefore_succ apps pars (termRange apps pars) [] k _ hkk]
  · intro x
    rw [inelBefore_succ apps pars (termRange apps pars) [] k _ hkk,
      mem_updateIneligible]
  · exact fun j hj x hx =>
      inelBefore_mono apps pars (termRange apps pars) [] k j hj x hx

/-- Witness for C8 on a concrete run of one accepted applicant. -/
theorem c8_ineligibility_set_lifecycle_witness :
    inelBefore [exSolo] [] [] (termRange [exSolo] []) 1 =
      updateIneligible (inelBefore [exSolo] [] [] (termRange [exSolo] []) 0)
        [⟨"1512345", "Alice", "", "", 4⟩] :=
  (c8_ineligibility_set_lifecycle [exSolo] [] 0
    ⟨0, [{ exSolo with error := some "S0" }], [],
      [⟨"1512345", "Alice", "", "", 4⟩]⟩ (by decide)).2.1

/-! ## Cleanliness invariants through the pipeline (for C9 and C10) -/

theorem partnerExistsStage_of_error_none (ids : List String) (s : Submission)
    (h : (partnerExistsStage ids s).error = none) : partnerExistsStage ids s = s := by
  rcases partnerExistsStage_eq ids s with he | he
  · exact he
  · rw [he] at h; exact absurd h (by simp)

theorem e2Stage_of_error_none (ids : List String) (s : Submission)
    (h : (e2Stage ids s).error = none) : e2Stage ids s = s := by
  rcases e2Stage_eq ids s with he | he
  · exact he
  · rw [he] at h; exact absurd h (by simp)

theorem markE3_of_error_none (ks : List SubKey) (s : Submission)
    (h : (markE3 ks s).error = none) : markE3 ks s = s := by
  rcases markE3_eq ks s with he | he
  · exact he
  · rw [he] at h; exact absurd h (by simp)

/-- A still-clean element of `apps` after the E2 pass is exactly the
validated copy of an original applicant-file submission. -/
theorem pt_apps3_clean (apps pars : List Submission) (inel : List String) :
    ∀ y ∈ pt_apps3 apps pars inel, y.error = none →
      apply_input_validation y = none ∧ ∃ s ∈ apps, y = validateStage s := by
  intro y hy hyerr
  unfold pt_apps3 pt_apps2 pt_apps1 at hy
  simp only [List.mem_map] at hy
  obtain ⟨x, ⟨a, ⟨b, hb, rfl⟩, rfl⟩, rfl⟩ := hy
  have h1 := e2Stage_of_error_none _ _ hyerr
  rw [h1] at hyerr ⊢
  have h2 := partnerExistsStage_of_error_none _ _ hyerr
  rw [h2] at hyerr ⊢
  refine ⟨?_, b, hb, rfl⟩
  rw [validateStage_eq, apply_input_validation_set_error]
  exact hyerr

/-- A still-clean element of `pars` after the E2 pass is exactly the
validated copy of an original partner-file submission. -/
theorem pt_pars3_clean (pars : List Submission) (inel : List String) :
    ∀ y ∈ pt_pars3 pars inel, y.error = none →
      apply_input_validation y = none ∧ ∃ s ∈ pars, y = validateStage s := by
  intro y hy hyerr
  unfold pt_pars3 pt_pars1 at hy
  simp only [List.mem_map] at hy
  obtain ⟨a, ⟨b, hb, rfl⟩, rfl⟩ := hy
  have h1 := e2Stage_of_error_none _ _ hyerr
  rw [h1] at hyerr ⊢
  refine ⟨?_, b, hb, rfl⟩
  rw [validateStage_eq, apply_input_validation_set_error]
  exact hyerr

/-- Every candidate is clean, passed validation, and is the validated
copy of some original submission. -/
theorem pt_candidates_clean (apps pars : List Submission) (inel : List String) :
    ∀ y ∈ pt_candidates apps pars inel,
      y.error = none ∧ apply_input_validation y = none ∧
        ∃ s ∈ apps ++ pars, y = validateStage s := by
  intro y hy
  unfold pt_candidates at hy
  rcases List.mem_filter.mp hy with ⟨hy1, hy2⟩
  have hyerr : y.error = none := of_decide_eq_true hy2
  rcases List.mem_append.mp hy1 with hy1 | hy1
  · obtain ⟨hv, s, hs, hvs⟩ := pt_apps3_clean apps pars inel y hy1 hyerr
    exact ⟨hyerr, hv, s, List.mem_append.mpr (Or.inl hs), hvs⟩
  · obtain ⟨hv, s, hs, hvs⟩ := pt_pars3_clean pars inel y hy1 hyerr
    exact ⟨hyerr, hv, s, List.mem_append.mpr (Or.inr hs), hvs⟩

/-- The same facts for the post-deduplication candidate set. -/
theorem pt_candidates2_clean (apps pars : List Submission) (inel : List String) :
    ∀ y ∈ pt_candidates2 apps pars inel,
      y.error = none ∧ apply_input_validation y = none ∧
        ∃ s ∈ apps ++ pars, y = validateStage s := by
  intro y hy
  unfold pt_candidates2 at hy
  rcases List.mem_filter.mp hy with ⟨hy1, -⟩
  exact pt_candidates_clean apps pars inel y
    (choose_latest_kept_sub _ y (by
      show y ∈ (pt_chosen apps pars inel).1
      exact hy1))

/-- The same facts for the partner-candidate set. -/
theorem pt_par_candidates_clean (apps pars : List Submission) (inel : List String) :
    ∀ p ∈ pt_par_candidates apps pars inel,
      p.error = none ∧ apply_input_validation p = none ∧
        ∃ s ∈ apps ++ pars, p = validateStage s := by
  intro p hp
  unfold pt_par_candidates at hp
  rcases List.mem_filter.mp hp with ⟨hp1, -⟩
  exact pt_candidates2_clean apps pars inel p hp1

/-- A still-clean element of the applicant-candidate list after the
pairing marks is an applicant-role candidate that passed validation. -/
theorem pt_appC2_clean (apps pars : List Submission) (inel : List String) :
    ∀ x ∈ pt_appC2 apps pars inel, x.error = none →
      x.role = "app" ∧ apply_input_validation x = none ∧
        ∃ s ∈ apps ++ pars, x = validateStage s := by
  intro x hx hxerr
  unfold pt_appC2 pt_appC1 at hx
  simp only [List.mem_map] at hx
  obtain ⟨x0, ⟨y, hy, rfl⟩, rfl⟩ := hx
  have h1 := markE3_of_error_none _ _ hxerr
  rw [h1] at hxerr ⊢
  have h2 := markE3_of_error_none _ _ hxerr
  rw [h2] at hxerr ⊢
  unfold pt_app_candidates at hy
  rcases List.mem_filter.mp hy with ⟨hy1, hyrole⟩
  obtain ⟨-, hv, s, hs, hvs⟩ := pt_candidates2_clean apps pars inel y hy1
  exact ⟨by simpa using hyrole, hv, s, hs, hvs⟩

/-! ## The emission loop produces `emitRows` (for C9 and C10) -/

theorem emit_foldl_rows (parC : List Submission) :
    ∀ (l : List Submission) (st : EmitState),
      (l.foldl (emitStep parC) st).rows = st.rows ++ emitRows parC l := by
  intro l
  induction l with
  | nil => intro st; simp [emitRows]
  | cons a l ih =>
    intro st
    show ((l.foldl (emitStep parC) (emitStep parC st a))).rows = _
    rw [ih]
    have hstep : (emitStep parC st a).rows = st.rows ++
        (if a.error ≠ none then []
         else if a.has_partner = WITH_PARTNER then
           match partnerLookup parC a.partner_id with
           | none => []
           | some p =>
             if p.error ≠ none then []
             else [⟨a.person_id, a.person_name, p.person_id, p.person_name,
               a.floor.getD 0⟩]
         else [⟨a.person_id, a.person_name, "", "", a.floor.getD 0⟩]) := by
      unfold emitStep
      by_cases h1 : a.error ≠ none
      · simp [h1]
      · by_cases h2 : a.has_partner = WITH_PARTNER
        · cases hl : partnerLookup parC a.partner_id with
          | none => simp [h1, h2, hl]
          | some p =>
            by_cases h3 : p.error ≠ none
            · simp [h1, h2, hl, h3]
            · simp [h1, h2, hl, h3]
        · simp [h1, h2]
    rw [hstep]
    show _ = st.rows ++ (_ ++ emitRows parC l)
    rw [List.append_assoc]

/-- Shape of every row `emitRows` produces, given the invariants of
the emitting applicant-candidates and of the partner index. -/
theorem emitRows_wellformed (parC : List Submission)
    (hparC : ∀ p ∈ parC, p.error = none → apply_input_validation p = none) :
    ∀ (l : List Submission),
      (∀ a ∈ l, a.error = none →
        a.role = "app" ∧ apply_input_validation a = none ∧
          (∀ f : Int, a.floor = some f → 2 ≤ f ∧ f ≤ 6)) →
      ∀ row ∈ emitRows parC l,
        (2 ≤ row.floor ∧ row.floor ≤ 6) ∧ row.appId ≠ "" ∧
          is_valid_student_id row.appId = true ∧
          ((row.parId = "" ∧ row.parName = "") ∨
            (row.parId ≠ "" ∧ row.parName ≠ "" ∧
              is_valid_student_id row.parId = true)) := by
  intro l
  induction l with
  | nil => intro hl row hrow; simp [emitRows] at hrow
  | cons a l ih =>
    intro hl row hrow
    unfold emitRows at hrow
    rcases List.mem_append.mp hrow with hrow | hrow
    swap
    · exact ih (fun b hb => hl b (List.mem_cons_of_mem a hb)) row hrow
    by_cases h1 : a.error = none
    swap
    · rw [if_pos h1] at hrow
      simp at hrow
    rw [if_neg (show ¬a.error ≠ none from fun h => h h1)] at hrow
    obtain ⟨hrole, hv, hfl⟩ := hl a (List.mem_cons_self a l) h1
    obtain ⟨hid_ne, hname_ne, hid_ok, -, -, happ⟩ := apply_input_validation_none a hv
    obtain ⟨-, hfloor_ne, -, -, -⟩ := happ hrole
    obtain ⟨fl, hfl_eq⟩ : ∃ fl, a.floor = some fl := by
      rcases h : a.floor with - | fl
      · exact absurd h hfloor_ne
      · exact ⟨fl, rfl⟩
    obtain ⟨hfl2, hfl6⟩ := hfl fl hfl_eq
    have hgetD : a.floor.getD 0 = fl := by rw [hfl_eq]; rfl
    by_cases h2 : a.has_partner = WITH_PARTNER
    · rw [if_pos h2] at hrow
      rcases hlk : partnerLookup parC a.partner_id with - | p
      · simp only [hlk] at hrow
        simp at hrow
      simp only [hlk] at hrow
      by_cases h3 : p.error = none
      swap
      · rw [if_pos (show p.error ≠ none from h3)] at hrow
        simp at hrow
      rw [if_neg (show ¬p.error ≠ none from fun h => h h3)] at hrow
      rcases List.mem_singleton.mp hrow with rfl
      obtain ⟨hpmem, -⟩ := partnerLookup_some parC a.partner_id p hlk
      obtain ⟨hpid_ne, hpname_ne, hpid_ok, -, -, -⟩ :=
        apply_input_validation_none p (hparC p hpmem h3)
      exact ⟨by rw [hgetD]; exact ⟨hfl2, hfl6⟩, hid_ne, hid_ok,
        Or.inr ⟨hpid_ne, hpname_ne, hpid_ok⟩⟩
    · rw [if_neg h2] at hrow
      rcases List.mem_singleton.mp hrow with rfl
      exact ⟨by rw [hgetD]; exact ⟨hfl2, hfl6⟩, hid_ne, hid_ok,
        Or.inl ⟨rfl, rfl⟩⟩

/-! ## C9: every accepted allocation row is well-formed -/

/-- C9: every allocation row has a floor in `[2,6]`, a nonempty
applicant id in valid student-id format, and partner fields that are
either both empty or both nonempty with the partner id in valid
format.  The floor-range hypothesis holds for every submission built
by `build_submissions`, whose `floor` field is a `parse_floor` result
(see `c7_amended_parse_floor`: `parse_floor` only accepts `[2,6]`). -/
theorem c9_allocation_row_wellformed (apps pars : List Submission) (inel : List String)
    (hfl : ∀ a ∈ apps ++ pars, ∀ f : Int, a.floor = some f → 2 ≤ f ∧ f ≤ 6) :
    ∀ row ∈ (process_term apps pars inel).2.2,
      (2 ≤ row.floor ∧ row.floor ≤ 6) ∧ row.appId ≠ "" ∧
        is_valid_student_id row.appId = true ∧
        ((row.parId = "" ∧ row.parName = "") ∨
          (row.parId ≠ "" ∧ row.parName ≠ "" ∧
            is_valid_student_id row.parId = true)) := by
  have hrows : (process_term apps pars inel).2.2 =
      emitRows (pt_par_candidates apps pars inel) (pt_appC2 apps pars inel) := by
    show (pt_emitted apps pars inel).rows = _
    unfold pt_emitted
    rw [emit_foldl_rows]
    rfl
  rw [hrows]
  refine emitRows_wellformed _ ?_ _ ?_
  · intro p hp hperr
    exact (pt_par_candidates_clean apps pars inel p hp).2.1
  · intro a ha haerr
    obtain ⟨hrole, hv, s, hs, rfl⟩ := pt_appC2_clean apps pars inel a ha haerr
    refine ⟨hrole, hv, ?_⟩
    intro f hf
    exact hfl s hs f hf

/-! ## Dictionary-key and group lemmas (for C3, C4, C10) -/

theorem mem_uniqueKeys_aux (x : String) :
    ∀ (l acc : List String),
      (x ∈ l.foldl (fun acc y => if y ∈ acc then acc else acc ++ [y]) acc ↔
        x ∈ acc ∨ x ∈ l) := by
  intro l
  induction l with
  | nil => intro acc; simp
  | cons a l ih =>
    intro acc
    show x ∈ l.foldl _ (if a ∈ acc then acc else acc ++ [a]) ↔ _
    rw [ih]
    by_cases ha : a ∈ acc
    · rw [if_pos ha]
      simp only [List.mem_cons]
      constructor
      · rintro (h | h)
        · exact Or.inl h
        · exact Or.inr (Or.inr h)
      · rintro (h | h | h)
        · exact Or.inl h
        · exact Or.inl (h ▸ ha)
        · exact Or.inr h
    · rw [if_neg ha]
      simp only [List.mem_append, List.mem_singleton, List.mem_cons]
      tauto

theorem mem_uniqueKeys (l : List String) (x : String) :
    x ∈ uniqueKeys l ↔ x ∈ l := by
  rw [uniqueKeys, mem_uniqueKeys_aux]
  simp

theorem uniqueKeys_nodup_aux :
    ∀ (l acc : List String), acc.Nodup →
      (l.foldl (fun acc y => if y ∈ acc then acc else acc ++ [y]) acc).Nodup := by
  intro l
  induction l with
  | nil => intro acc h; exact h
  | cons a l ih =>
    intro acc h
    show (l.foldl _ (if a ∈ acc then acc else acc ++ [a])).Nodup
    refine ih _ ?_
    by_cases ha : a ∈ acc
    · rwa [if_pos ha]
    · rw [if_neg ha]
      simp [List.nodup_append, h, ha]

theorem uniqueKeys_nodup (l : List String) : (uniqueKeys l).Nodup :=
  uniqueKeys_nodup_aux l [] List.nodup_nil

theorem mem_group_iff (c : List Submission) (pid : String) (s : Submission) :
    s ∈ c.filter (fun x => x.person_id == pid) ↔ s ∈ c ∧ s.person_id = pid := by
  rw [List.mem_filter]
  simp

/-- In a sorted list the last element dominates every element. -/
theorem sorted_getLast_max (m : List Submission) (hm : List.Sorted subLe m)
    (hne : m ≠ []) : ∀ s ∈ m, subLE s (m.getLast hne) = true := by
  intro s hs
  have hdecomp := List.dropLast_concat_getLast hne
  rw [← hdecomp] at hs hm
  rcases List.mem_append.mp hs with h | h
  · exact (List.pairwise_append.mp hm).2.2 s h _ (List.mem_singleton_self _)
  · rw [List.mem_singleton.mp h]
    exact subLe_refl _

/-- In a sorted nonempty list the head is dominated by every element. -/
theorem sorted_head_min (k : Submission) (rest : List Submission)
    (hm : List.Sorted subLe (k :: rest)) :
    ∀ s ∈ k :: rest, subLE k s = true := by
  intro s hs
  rcases List.mem_cons.mp hs with rfl | hs
  · exact subLe_refl s
  · exact (List.pairwise_cons.mp hm).1 s hs

/-- Introduction form for membership in the kept list. -/
theorem mem_kept_of (c : List Submission) (pid : String)
    (h : pid ∈ uniqueKeys (c.map (·.person_id)))
    (hne : sortSubs (c.filter (fun s => s.person_id == pid)) ≠ []) :
    (sortSubs (c.filter (fun s => s.person_id == pid))).getLast hne ∈
      (choose_latest_by_person c).1 := by
  simp only [choose_latest_by_person, List.mem_filterMap, List.mem_map]
  exact ⟨c.filter (fun s => s.person_id == pid), ⟨pid, h, rfl⟩,
    List.getLast?_eq_getLast _ hne⟩

/-- Elimination form for membership in the kept list. -/
theorem kept_elim (c : List Submission) (x : Submission)
    (hx : x ∈ (choose_latest_by_person c).1) :
    ∃ pid, pid ∈ uniqueKeys (c.map (·.person_id)) ∧
      (sortSubs (c.filter (fun s => s.person_id == pid))).getLast? = some x := by
  simp only [choose_latest_by_person, List.mem_filterMap, List.mem_map] at hx
  obtain ⟨g, ⟨pid, hpid, rfl⟩, hg⟩ := hx
  exact ⟨pid, hpid, hg⟩

/-- Introduction form for membership in the dropped list. -/
theorem mem_dropped_of (c : List Submission) (pid : String) (x : Submission)
    (h : pid ∈ uniqueKeys (c.map (·.person_id)))
    (hx : x ∈ (sortSubs (c.filter (fun s => s.person_id == pid))).dropLast) :
    x ∈ (choose_latest_by_person c).2 := by
  simp only [choose_latest_by_person, List.mem_flatMap, List.mem_map]
  exact ⟨c.filter (fun s => s.person_id == pid), ⟨pid, h, rfl⟩, hx⟩

/-- Elimination form for membership in the dropped list. -/
theorem dropped_elim (c : List Submission) (x : Submission)
    (hx : x ∈ (choose_latest_by_person c).2) :
    ∃ pid, pid ∈ uniqueKeys (c.map (·.person_id)) ∧
      x ∈ (sortSubs (c.filter (fun s => s.person_id == pid))).dropLast := by
  simp only [choose_latest_by_person, List.mem_flatMap, List.mem_map] at hx
  obtain ⟨g, ⟨pid, hpid, rfl⟩, hg⟩ := hx
  exact ⟨pid, hpid, hg⟩

/-! ## C3: the deduplicator keeps exactly the latest submission -/

/-- C3: among the still-clean submissions of a term sharing one
`personId`, exactly one submission `k` is kept; it dominates every
member of its group under `(timestamp ascending, sequenceIndex
ascending)`, and every other member is assigned `E3` by the
deduplication mark.  With equal timestamps the domination forces the
higher sequence index to be kept (any other group member `s` satisfies
`subLE s k`, which for `s ≠ k`, equal timestamps and distinct indices
means `s.row_index < k.row_index`). -/
theorem c3_dedup_keeps_latest (c : List Submission) (pid : String)
    (hnd : (c.map subId).Nodup)
    (hcl : ∀ s ∈ c, s.error = none)
    (hg : c.filter (fun s => s.person_id == pid) ≠ []) :
    ∃ k ∈ c.filter (fun s => s.person_id == pid),
      (∀ s ∈ c.filter (fun s => s.person_id == pid), subLE s k = true) ∧
      (∀ s ∈ c.filter (fun s => s.person_id == pid),
        (s ∈ (choose_latest_by_person c).1 ↔ s = k)) ∧
      (∀ s ∈ c.filter (fun s => s.person_id == pid), s ≠ k →
        (markE3 ((choose_latest_by_person c).2.map subId) s).error = some "E3") ∧
      markE3 ((choose_latest_by_person c).2.map subId) k = k := by
  have hpid : pid ∈ uniqueKeys (c.map (·.person_id)) := by
    rw [mem_uniqueKeys]
    obtain ⟨x, hx⟩ := List.exists_mem_of_ne_nil _ hg
    obtain ⟨hxc, hxpid⟩ := (mem_group_iff c pid x).mp hx
    exact List.mem_map.mpr ⟨x, hxc, hxpid⟩
  have hne : sortSubs (c.filter (fun s => s.person_id == pid)) ≠ [] := by
    intro h
    apply hg
    have hlen := (sortSubs_perm (c.filter (fun s => s.person_id == pid))).length_eq
    rw [h] at hlen
    exact List.length_eq_zero.mp hlen.symm
  set g := c.filter (fun s => s.person_id == pid) with hgdef
  set k := (sortSubs g).getLast hne with hkdef
  have hkg : k ∈ g := (sortSubs_perm g).mem_iff.mp (List.getLast_mem hne)
  have hnodc : c.Nodup := hnd.of_map
  have hnodg : g.Nodup := hnodc.filter _
  have hnods : (sortSubs g).Nodup := ((sortSubs_perm g).nodup_iff).mpr hnodg
  have hknotd : k ∉ (sortSubs g).dropLast := by
    intro hmem
    have hdecomp := List.dropLast_concat_getLast hne
    rw [← hkdef] at hdecomp
    rw [← hdecomp] at hnods
    rcases List.nodup_append.mp hnods with ⟨-, -, hdisj⟩
    exact hdisj hmem (List.mem_singleton_self k)
  have hkey : subId k ∉ (choose_latest_by_person c).2.map subId := by
    intro hmem
    obtain ⟨d, hd, hdk⟩ := List.mem_map.mp hmem
    have hdc : d ∈ c := choose_latest_dropped_sub c d hd
    have hkc : k ∈ c := (mem_group_iff c pid k).mp hkg |>.1
    have hdk2 : d = k := List.inj_on_of_nodup_map hnd hdc hkc hdk
    rw [hdk2] at hd
    obtain ⟨pid2, hpid2, hdrop⟩ := dropped_elim c k hd
    have hdg2 : k ∈ c.filter (fun s => s.person_id == pid2) :=
      (sortSubs_perm _).mem_iff.mp ((List.dropLast_sublist _).subset hdrop)
    have hpe : pid2 = pid := by
      have h1 := ((mem_group_iff c pid2 k).mp hdg2).2
      have h2 := ((mem_group_iff c pid k).mp hkg).2
      rw [← h1, h2]
    rw [hpe] at hdrop
    exact hknotd hdrop
  refine ⟨k, hkg, ?_, ?_, ?_, ?_⟩
  · intro s hs
    exact sorted_getLast_max _ (sortSubs_sorted g)
      hne s ((sortSubs_perm g).mem_iff.mpr hs)
  · intro s hs
    constructor
    · intro hkept
      obtain ⟨pid2, hpid2, hlast⟩ := kept_elim c s hkept
      have hsg2 : s ∈ c.filter (fun x => x.person_id == pid2) := by
        obtain ⟨ys, hys⟩ := List.getLast?_eq_some_iff.mp hlast
        refine (sortSubs_perm _).mem_iff.mp ?_
        rw [hys]; simp
      have hpe : pid2 = pid := by
        have h1 := ((mem_group_iff c pid2 s).mp hsg2).2
        have h2 := ((mem_group_iff c pid s).mp hs).2
        rw [← h1, h2]
      rw [hpe] at hlast
      rw [List.getLast?_eq_getLast _ hne] at hlast
      exact (Option.some.injEq _ _ ▸ hlast).symm ▸ rfl
    · rintro rfl
      exact hkdef ▸ mem_kept_of c pid hpid hne
  · intro s hs hsk
    have hsdrop : s ∈ (sortSubs g).dropLast := by
      have hss : s ∈ sortSubs g := (sortSubs_perm g).mem_iff.mpr hs
      have hdecomp := List.dropLast_concat_getLast hne
      rw [← hkdef] at hdecomp
      rw [← hdecomp] at hss
      rcases List.mem_append.mp hss with h | h
      · exact h
      · exact absurd (List.mem_singleton.mp h) hsk
    have hmark : subId s ∈ (choose_latest_by_person c).2.map subId :=
      List.mem_map.mpr ⟨s, mem_dropped_of c pid s hpid hsdrop, rfl⟩
    unfold markE3
    rw [if_pos ⟨hmark, hcl s ((mem_group_iff c pid s).mp hs).1⟩]
  · unfold markE3
    rw [if_neg]
    rintro ⟨h1, -⟩
    exact hkey h1

/-- Witness for C3: two submissions by one person with equal
timestamps and sequence indices 0 and 1; the domination property
forces the one with index 1 to be the kept one. -/
theorem c3_dedup_keeps_latest_witness :
    ∃ k ∈ [exDupA, exDupB].filter (fun s => s.person_id == "1512345"),
      (∀ s ∈ [exDupA, exDupB].filter (fun s => s.person_id == "1512345"),
        subLE s k = true) ∧
      (∀ s ∈ [exDupA, exDupB].filter (fun s => s.person_id == "1512345"),
        (s ∈ (choose_latest_by_person [exDupA, exDupB]).1 ↔ s = k)) ∧
      (∀ s ∈ [exDupA, exDupB].filter (fun s => s.person_id == "1512345"), s ≠ k →
        (markE3 ((choose_latest_by_person [exDupA, exDupB]).2.map subId) s).error =
          some "E3") ∧
      markE3 ((choose_latest_by_person [exDupA, exDupB]).2.map subId) k = k :=
  c3_dedup_keeps_latest [exDupA, exDupB] "1512345" (by decide)
    (by decide) (by decide)

/-! ## C4: pairing conflicts are won by the earliest applicant -/

/-- C4: among the surviving partner-requiring applicant-candidates
that reference one `partnerId`, when the group has two or more
members, exactly the minimum under `(timestamp ascending,
sequenceIndex ascending)` keeps its claim (its conflict mark is a
no-op) and every other member is assigned `E3`; the minimum is strict,
so of two applicants with different timestamps the earlier one wins.
The final conjunct runs the scenario end to end: two applicants
reference partner `4112345`; the earlier-timestamped one is paired
(`S0`, allocation row with the partner), the later receives `E3`. -/
theorem c4_conflict_earliest_wins (l : List Submission) (pid : String)
    (hnd : (l.map subId).Nodup)
    (hrole : ∀ a ∈ l, a.role = "app")
    (hg : 2 ≤ ((l.filter (fun a => a.error == none &&
        a.has_partner == WITH_PARTNER)).filter
      (fun a => a.partner_id == pid)).length) :
    (∃ k ∈ (l.filter (fun a => a.error == none &&
          a.has_partner == WITH_PARTNER)).filter (fun a => a.partner_id == pid),
      (∀ s ∈ (l.filter (fun a => a.error == none &&
          a.has_partner == WITH_PARTNER)).filter (fun a => a.partner_id == pid),
        subLE k s = true) ∧
      (∀ s ∈ (l.filter (fun a => a.error == none &&
          a.has_partner == WITH_PARTNER)).filter (fun a => a.partner_id == pid),
        s ≠ k → subLE s k = false) ∧
      markE3 (conflictLoserKeys (l.filter (fun a => a.error == none &&
        a.has_partner == WITH_PARTNER))) k = k ∧
      (∀ s ∈ (l.filter (fun a => a.error == none &&
          a.has_partner == WITH_PARTNER)).filter (fun a => a.partner_id == pid),
        s ≠ k →
          (markE3 (conflictLoserKeys (l.filter (fun a => a.error == none &&
            a.has_partner == WITH_PARTNER))) s).error = some "E3")) ∧
    ((process_term [exAppA, exAppB] [exParP] []).1.map (fun s => s.error) =
        [some "S0", some "E3"] ∧
      (process_term [exAppA, exAppB] [exParP] []).2.1.map (fun s => s.error) =
        [some "S0"] ∧
      (process_term [exAppA, exAppB] [exParP] []).2.2 =
        [⟨"1512345", "Alice", "4112345", "Pat", 2⟩]) := by
  refine ⟨?_, by decide, by decide, by decide⟩
  set reqs := l.filter (fun a => a.error == none && a.has_partner == WITH_PARTNER)
    with hreqs
  set G := reqs.filter (fun a => a.partner_id == pid) with hGdef
  have hreqs_sub : ∀ a ∈ reqs, a ∈ l := fun a ha => (List.mem_filter.mp ha).1
  have hG_req : ∀ a ∈ G, a ∈ reqs := fun a ha => (List.mem_filter.mp ha).1
  have hG_pid : ∀ a ∈ G, a.partner_id = pid := fun a ha => by
    have := (List.mem_filter.mp ha).2
    simpa using this
  have hG_err : ∀ a ∈ G, a.error = none := fun a ha => by
    have := (List.mem_filter.mp (hG_req a ha)).2
    simp only [Bool.and_eq_true, beq_iff_eq] at this
    exact this.1
  have hpiduk : pid ∈ uniqueKeys (reqs.map (·.partner_id)) := by
    rw [mem_uniqueKeys]
    have hne : G ≠ [] := by
      intro h
      rw [h] at hg
      simp at hg
    obtain ⟨x, hx⟩ := List.exists_mem_of_ne_nil _ hne
    exact List.mem_map.mpr ⟨x, hG_req x hx, hG_pid x hx⟩
  have hGgrp : G ∈ conflictGroups reqs := by
    unfold conflictGroups
    exact List.mem_map.mpr ⟨pid, hpiduk, rfl⟩
  have hsne : sortSubs G ≠ [] := by
    intro h
    have hlen := (sortSubs_perm G).length_eq
    rw [h] at hlen
    have : G.length = 0 := hlen.symm
    omega
  obtain ⟨k, rest, hs⟩ : ∃ k rest, sortSubs G = k :: rest := by
    rcases h : sortSubs G with - | ⟨k, rest⟩
    · exact absurd h hsne
    · exact ⟨k, rest, rfl⟩
  have hkG : k ∈ G := (sortSubs_perm G).mem_iff.mp (by rw [hs]; simp)
  have hnodl : l.Nodup := hnd.of_map
  have hnodG : G.Nodup := (hnodl.filter _).filter _
  have hnodS : (sortSubs G).Nodup := ((sortSubs_perm G).nodup_iff).mpr hnodG
  have hmin : ∀ s ∈ G, subLE k s = true := by
    intro s hsG
    have := sorted_head_min k rest (hs ▸ sortSubs_sorted G)
    exact this s (hs ▸ (sortSubs_perm G).mem_iff.mpr hsG)
  have hstrict : ∀ s ∈ G, s ≠ k → subLE s k = false := by
    intro s hsG hsk
    by_contra hcon
    rw [Bool.not_eq_false] at hcon
    have hks := hmin s hsG
    simp only [subLE, Bool.or_eq_true, Bool.and_eq_true, decide_eq_true_eq,
      beq_iff_eq] at hcon hks
    have hts : s.timestamp = k.timestamp := by omega
    have hidx : s.row_index = k.row_index := by omega
    have hrs : s.role = "app" := hrole s (hreqs_sub s (hG_req s hsG))
    have hrk : k.role = "app" := hrole k (hreqs_sub k (hG_req k hkG))
    have hsub : subId s = subId k := by
      unfold subId
      rw [hrs, hrk, hidx]
    exact hsk (List.inj_on_of_nodup_map hnd
      (hreqs_sub s (hG_req s hsG)) (hreqs_sub k (hG_req k hkG)) hsub)
  have hlosers : ∀ s ∈ G, s ≠ k →
      subId s ∈ conflictLoserKeys reqs := by
    intro s hsG hsk
    unfold conflictLoserKeys
    refine List.mem_flatMap.mpr ⟨G, hGgrp, ?_⟩
    rw [if_neg (by omega)]
    refine List.mem_map.mpr ⟨s, ?_, rfl⟩
    have hss : s ∈ sortSubs G := (sortSubs_perm G).mem_iff.mpr hsG
    rw [hs] at hss ⊢
    rcases List.mem_cons.mp hss with rfl | hss
    · exact absurd rfl hsk
    · exact hss
  have hknot : subId k ∉ conflictLoserKeys reqs := by
    intro hmem
    unfold conflictLoserKeys at hmem
    obtain ⟨g2, hg2, hk2⟩ := List.mem_flatMap.mp hmem
    unfold conflictGroups at hg2
    obtain ⟨pid2, hpid2, rfl⟩ := List.mem_map.mp hg2
    by_cases hlen : (reqs.filter (fun a => a.partner_id == pid2)).length ≤ 1
    · rw [if_pos hlen] at hk2
      simp at hk2
    rw [if_neg hlen] at hk2
    obtain ⟨d, hd, hdk⟩ := List.mem_map.mp hk2
    have hds : d ∈ sortSubs (reqs.filter (fun a => a.partner_id == pid2)) :=
      (List.drop_sublist 1 _).subset hd
    have hdG2 : d ∈ reqs.filter (fun a => a.partner_id == pid2) :=
      (sortSubs_perm _).mem_iff.mp hds
    have hdl : d ∈ l := hreqs_sub d (List.mem_filter.mp hdG2).1
    have hkl : k ∈ l := hreqs_sub k (hG_req k hkG)
    have hdk2 : d = k := List.inj_on_of_nodup_map hnd hdl hkl hdk
    rw [hdk2] at hdG2 hd
    have hpid2k : k.partner_id = pid2 := by
      have := (List.mem_filter.mp hdG2).2
      simpa using this
    have hpe : pid2 = pid := by rw [← hpid2k, hG_pid k hkG]
    rw [hpe] at hd
    rw [← hGdef] at hd
    rw [hs] at hd
    have : k ∈ rest := by simpa using hd
    rw [hs] at hnodS
    exact (List.nodup_cons.mp hnodS).1 this
  refine ⟨k, hkG, hmin, hstrict, ?_, ?_⟩
  · unfold markE3
    rw [if_neg]
    rintro ⟨h1, -⟩
    exact hknot h1
  · intro s hsG hsk
    unfold markE3
    rw [if_pos ⟨hlosers s hsG hsk, hG_err s hsG⟩]

/-- Witness for C4: two applicants referencing partner `4112345` with
timestamps 100 and 200. -/
theorem c4_conflict_earliest_wins_witness :
    (∃ k ∈ ([exAppA, exAppB].filter (fun a => a.error == none &&
          a.has_partner == WITH_PARTNER)).filter (fun a => a.partner_id == "4112345"),
      (∀ s ∈ ([exAppA, exAppB].filter (fun a => a.error == none &&
          a.has_partner == WITH_PARTNER)).filter (fun a => a.partner_id == "4112345"),
        subLE k s = true) ∧
      (∀ s ∈ ([exAppA, exAppB].filter (fun a => a.error == none &&
          a.has_partner == WITH_PARTNER)).filter (fun a => a.partner_id == "4112345"),
        s ≠ k → subLE s k = false) ∧
      markE3 (conflictLoserKeys ([exAppA, exAppB].filter (fun a => a.error == none &&
        a.has_partner == WITH_PARTNER))) k = k ∧
      (∀ s ∈ ([exAppA, exAppB].filter (fun a => a.error == none &&
          a.has_partner == WITH_PARTNER)).filter (fun a => a.partner_id == "4112345"),
        s ≠ k →
          (markE3 (conflictLoserKeys ([exAppA, exAppB].filter (fun a =>
            a.error == none && a.has_partner == WITH_PARTNER))) s).error =
            some "E3")) ∧
    ((process_term [exAppA, exAppB] [exParP] []).1.map (fun s => s.error) =
        [some "S0", some "E3"] ∧
      (process_term [exAppA, exAppB] [exParP] []).2.1.map (fun s => s.error) =
        [some "S0"] ∧
      (process_term [exAppA, exAppB] [exParP] []).2.2 =
        [⟨"1512345", "Alice", "4112345", "Pat", 2⟩]) :=
  c4_conflict_earliest_wins [exAppA, exAppB] "4112345" (by decide) (by decide)
    (by decide)

/-! ## Partition and uniqueness facts for C10 -/

/-- Every candidate is either kept or dropped by the deduplicator. -/
theorem choose_latest_cover (c : List Submission) (x : Submission) (hx : x ∈ c) :
    x ∈ (choose_latest_by_person c).1 ∨ x ∈ (choose_latest_by_person c).2 := by
  have hpid : x.person_id ∈ uniqueKeys (c.map (·.person_id)) :=
    (mem_uniqueKeys _ _).mpr (List.mem_map.mpr ⟨x, hx, rfl⟩)
  have hxg : x ∈ c.filter (fun s => s.person_id == x.person_id) :=
    (mem_group_iff c x.person_id x).mpr ⟨hx, rfl⟩
  have hxs : x ∈ sortSubs (c.filter (fun s => s.person_id == x.person_id)) :=
    (sortSubs_perm _).mem_iff.mpr hxg
  have hne : sortSubs (c.filter (fun s => s.person_id == x.person_id)) ≠ [] :=
    List.ne_nil_of_mem hxs
  have hdecomp := List.dropLast_concat_getLast hne
  rw [← hdecomp] at hxs
  rcases List.mem_append.mp hxs with h | h
  · exact Or.inr (mem_dropped_of c x.person_id x hpid h)
  · left
    rw [List.mem_singleton.mp h]
    exact mem_kept_of c x.person_id hpid hne

/-- The person ids of the kept submissions are exactly the distinct
person ids of the candidates, in first-occurrence order. -/
theorem kept_pids_eq (c : List Submission) :
    (choose_latest_by_person c).1.map (·.person_id) =
      uniqueKeys (c.map (·.person_id)) := by
  have haux : ∀ pids : List String,
      (∀ pid ∈ pids, ∃ s ∈ c, s.person_id = pid) →
      ((pids.map (fun pid => c.filter (fun s => s.person_id == pid))).filterMap
        (fun g => (sortSubs g).getLast?)).map (·.person_id) = pids := by
    intro pids
    induction pids with
    | nil => intro h; rfl
    | cons p ps ih =>
      intro h
      have hne : sortSubs (c.filter (fun s => s.person_id == p)) ≠ [] := by
        obtain ⟨s, hs, hsp⟩ := h p (List.mem_cons_self p ps)
        have : s ∈ c.filter (fun x => x.person_id == p) :=
          (mem_group_iff c p s).mpr ⟨hs, hsp⟩
        exact List.ne_nil_of_mem ((sortSubs_perm _).mem_iff.mpr this)
      have hlast := List.getLast?_eq_getLast _ hne
      simp only [List.map_cons, List.filterMap_cons, hlast]
      congr 1
      · have hk := (sortSubs_perm _).mem_iff.mp (List.getLast_mem hne)
        exact ((mem_group_iff c p _).mp hk).2
      · exact ih (fun q hq => h q (List.mem_cons_of_mem _ hq))
  show ((((uniqueKeys (c.map (·.person_id)))).map
      (fun pid => c.filter (fun s => s.person_id == pid))).filterMap
    (fun g => (sortSubs g).getLast?)).map (·.person_id) = _
  refine haux _ ?_
  intro pid hpid
  have := (mem_uniqueKeys _ _).mp hpid
  obtain ⟨s, hs, hsp⟩ := List.mem_map.mp this
  exact ⟨s, hs, hsp⟩

theorem kept_pids_nodup (c : List Submission) :
    ((choose_latest_by_person c).1.map (·.person_id)).Nodup := by
  rw [kept_pids_eq]
  exact uniqueKeys_nodup _

theorem process_term_fst (apps pars : List Submission) (inel : List String) :
    (process_term apps pars inel).1 =
      (pt_apps5 apps pars inel).map
        (classifyStage (pt_valid_app_ids apps pars inel)) := rfl

theorem process_term_snd (apps pars : List Submission) (inel : List String) :
    (process_term apps pars inel).2.1 =
      (pt_pars5 apps pars inel).map
        (classifyStage (pt_valid_par_ids apps pars inel)) := rfl

theorem process_term_rows_eq (apps pars : List Submission) (inel : List String) :
    (process_term apps pars inel).2.2 = (pt_emitted apps pars inel).rows := rfl

/-- The final submission lists carry the same `(role, row_index)` keys
as the inputs, in order. -/
theorem process_term_keys (apps pars : List Submission) (inel : List String) :
    ((process_term apps pars inel).1 ++ (process_term apps pars inel).2.1).map subId =
      (apps ++ pars).map subId := by
  rw [process_term_fst, process_term_snd]
  unfold pt_apps5 pt_apps4 pt_apps3 pt_apps2 pt_apps1 pt_pars5 pt_pars4 pt_pars3
    pt_pars1
  simp only [List.map_append, List.map_map]
  congr 1
  · refine List.map_congr_left ?_
    intro s hs
    simp only [Function.comp_apply]
    rw [subId_classifyStage, subId_markE3, subId_markE3, subId_e2Stage,
      subId_partnerExistsStage, subId_validateStage]
  · refine List.map_congr_left ?_
    intro s hs
    simp only [Function.comp_apply]
    rw [subId_classifyStage, subId_markE3, subId_markE3, subId_e2Stage,
      subId_validateStage]

/-- The candidate list inherits distinct keys from the inputs. -/
theorem pt_candidates_keys_nodup (apps pars : List Submission) (inel : List String)
    (hnd : ((apps ++ pars).map subId).Nodup) :
    ((pt_candidates apps pars inel).map subId).Nodup := by
  have h1 : (pt_apps3 apps pars inel ++ pt_pars3 pars inel).map subId =
      (apps ++ pars).map subId := by
    unfold pt_apps3 pt_apps2 pt_apps1 pt_pars3 pt_pars1
    simp only [List.map_append, List.map_map]
    congr 1
    · refine List.map_congr_left ?_
      intro s hs
      simp only [Function.comp_apply]
      rw [subId_e2Stage, subId_partnerExistsStage, subId_validateStage]
    · refine List.map_congr_left ?_
      intro s hs
      simp only [Function.comp_apply]
      rw [subId_e2Stage, subId_validateStage]
  have h2 : ((pt_candidates apps pars inel).map subId).Sublist
      ((pt_apps3 apps pars inel ++ pt_pars3 pars inel).map subId) :=
    (List.filter_sublist _).map subId
  rw [h1] at h2
  exact hnd.sublist h2

/-- The kept list consists of candidates with pairwise-distinct person
ids; its keys are distinct as well. -/
theorem kept_keys_nodup (apps pars : List Submission) (inel : List String)
    (hnd : ((apps ++ pars).map subId).Nodup) :
    (((pt_chosen apps pars inel).1).map subId).Nodup := by
  unfold pt_chosen
  have hkn : ((choose_latest_by_person (pt_candidates apps pars inel)).1).Nodup :=
    List.Nodup.of_map _ (kept_pids_nodup (pt_candidates apps pars inel))
  refine List.Nodup.map_on ?_ hkn
  intro x hx y hy hxy
  exact List.inj_on_of_nodup_map (pt_candidates_keys_nodup apps pars inel hnd)
    (choose_latest_kept_sub _ x hx) (choose_latest_kept_sub _ y hy) hxy

/-- Witness for C9 on a concrete term. -/
theorem c9_allocation_row_wellformed_witness :
    (2 ≤ (⟨"1512345", "Alice", "", "", 4⟩ : Row).floor ∧
      (⟨"1512345", "Alice", "", "", 4⟩ : Row).floor ≤ 6) ∧
    (⟨"1512345", "Alice", "", "", 4⟩ : Row).appId ≠ "" ∧
    is_valid_student_id (⟨"1512345", "Alice", "", "", 4⟩ : Row).appId = true ∧
    (((⟨"1512345", "Alice", "", "", 4⟩ : Row).parId = "" ∧
        (⟨"1512345", "Alice", "", "", 4⟩ : Row).parName = "") ∨
      ((⟨"1512345", "Alice", "", "", 4⟩ : Row).parId ≠ "" ∧
        (⟨"1512345", "Alice", "", "", 4⟩ : Row).parName ≠ "" ∧
        is_valid_student_id (⟨"1512345", "Alice", "", "", 4⟩ : Row).parId = true)) :=
  c9_allocation_row_wellformed [exSolo] [] [] (by decide)
    ⟨"1512345", "Alice", "", "", 4⟩ (by decide)

/-- The seven-character core of the id regular expression, as a
structural characterization. -/
theorem matchesStudentCore_iff (cs : List Char) :
    matchesStudentCore cs = true ↔ studentCode7 cs := by
  constructor
  · intro h
    unfold matchesStudentCore at h
    split at h
    · next c0 c1 c2 c3 c4 c5 c6 =>
      simp only [Bool.and_eq_true, Bool.or_eq_true, decide_eq_true_eq] at h
      exact ⟨c0, c1, [c2, c3, c4, c5, c6], rfl, rfl, h.1, by tauto⟩
    · exact absurd h (by simp)
  · rintro ⟨c0, c1, ds, rfl, hlen, hall, hcase⟩
    rcases ds with _ | ⟨d0, ds⟩
    · simp at hlen
    rcases ds with _ | ⟨d1, ds⟩
    · simp at hlen
    rcases ds with _ | ⟨d2, ds⟩
    · simp at hlen
    rcases ds with _ | ⟨d3, ds⟩
    · simp at hlen
    rcases ds with _ | ⟨d4, ds⟩
    · simp at hlen
    rcases ds with _ | ⟨d5, ds⟩
    · unfold matchesStudentCore
      simp only [Bool.and_eq_true, Bool.or_eq_true, decide_eq_true_eq]
      exact ⟨hall, by tauto⟩
    · simp at hlen

/-- C1 (amended): a string passes `is_valid_student_id` iff it is a
seven-character code — `15` then five digits, or `4`/`8` then a digit
`1`-`6` then five digits — optionally followed by one trailing newline
(Python's `$` anchor also matches just before a final newline). -/
theorem c1_amended_student_id_format (s : String) :
    is_valid_student_id s = true ↔
      (studentCode7 s.data ∨ ∃ t, s.data = t ++ ['\n'] ∧ studentCode7 t) := by
  unfold is_valid_student_id
  simp only [Bool.or_eq_true, Bool.and_eq_true, beq_iff_eq]
  rw [matchesStudentCore_iff]
  constructor
  · rintro (h | ⟨hlast, hcore⟩)
    · exact Or.inl h
    · obtain ⟨t, ht⟩ := List.getLast?_eq_some_iff.mp hlast
      refine Or.inr ⟨t, ht, ?_⟩
      rw [matchesStudentCore_iff] at hcore
      rwa [ht, List.dropLast_concat] at hcore
  · rintro (h | ⟨t, ht, hcore⟩)
    · exact Or.inl h
    · refine Or.inr ⟨?_, ?_⟩
      · rw [ht]; simp
      · rw [matchesStudentCore_iff, ht, List.dropLast_concat]
        exact hcore

/-- C1 counterexample: `"151234"` is a 6-digit code beginning `15`, so
the claimed characterization accepts it, but the code's check (which
requires seven characters) rejects it. -/
theorem c1_counterexample :
    ¬ (is_valid_student_id "151234" = true ↔ claimedStudentId "151234" = true) := by
  decide

/-! ## C5: the term segmenter -/

/-- C5: for the anchor computed from the minimum timestamp `tmin`, a
submission timestamp falls in term `k` iff it lies in the half-open
7-day window `[anchor + k·604800, anchor + (k+1)·604800)` — so a
timestamp exactly on a boundary belongs to the later term — and the
anchor is April 1 of `tmin`'s year, or April 1 of the prior year when
`tmin` precedes April 1 of its own year. -/
theorem c5_term_segmentation (tmin ts : PyDateTime) (k : Int) :
    (term_index ts (term_start_from_timestamp tmin) = k ↔
      toSeconds (term_start_from_timestamp tmin) + 604800 * k ≤ toSeconds ts ∧
        toSeconds ts < toSeconds (term_start_from_timestamp tmin) + 604800 * (k + 1)) ∧
    (toSeconds tmin < toSeconds (aprilFirst tmin.year) →
      term_start_from_timestamp tmin = aprilFirst (tmin.year - 1)) ∧
    (toSeconds (aprilFirst tmin.year) ≤ toSeconds tmin →
      term_start_from_timestamp tmin = aprilFirst tmin.year) := by
  refine ⟨?_, ?_, ?_⟩
  · unfold term_index
    rw [Int.fdiv_eq_ediv _ (by norm_num)]
    omega
  · intro h
    unfold term_start_from_timestamp
    simp only [if_pos h]
  · intro h
    unfold term_start_from_timestamp
    simp only [if_neg (not_lt.mpr h)]

/-- Witness for C5 at concrete dates: 2025-04-08 00:00:00 is exactly on
the first 7-day boundary after the 2025-04-01 anchor and falls in term
1, and a timestamp on 2025-03-31 anchors to April 1 of 2024. -/
theorem c5_term_segmentation_witness :
    term_index ⟨2025, 4, 8, 0, 0, 0⟩
        (term_start_from_timestamp ⟨2025, 4, 1, 0, 0, 0⟩) = 1 ∧
      term_start_from_timestamp ⟨2025, 3, 31, 0, 0, 0⟩ = aprilFirst 2024 :=
  ⟨(c5_term_segmentation ⟨2025, 4, 1, 0, 0, 0⟩ ⟨2025, 4, 8, 0, 0, 0⟩ 1).1.mpr
      (by decide),
    by
      have h := (c5_term_segmentation ⟨2025, 3, 31, 0, 0, 0⟩ ⟨2025, 4, 8, 0, 0, 0⟩ 0).2.1
        (by decide)
      simpa using h⟩

/-! ## C7: the floor-preference normalizer -/

/-- C7 (amended): both-empty or both-non-empty floor fields give
`none`; otherwise `parse_floor` yields `some f` exactly when removing
every occurrence of `'階'` (when the value ends with `'階'`) leaves a
string parsing to an integer `f` in `[2, 6]`. -/
theorem c7_amended_parse_floor (fa fb : String) (f : Int) :
    (((pyStrip fa = "") ↔ (pyStrip fb = "")) → parse_floor fa fb = none) ∧
    (parse_floor fa fb = some f ↔
      ¬((pyStrip fa = "") ↔ (pyStrip fb = "")) ∧ 2 ≤ f ∧ f ≤ 6 ∧
        pyParseInt (floorDigits fa fb) = some f) := by
  have hpf : parse_floor fa fb =
      if (pyStrip fa ≠ "" ∧ pyStrip fb ≠ "") ∨ (pyStrip fa = "" ∧ pyStrip fb = "") then
        none
      else
        match pyParseInt (floorDigits fa fb) with
        | none => none
        | some floor => if floor < 2 ∨ 6 < floor then none else some floor := rfl
  constructor
  · intro h
    rw [hpf, if_pos (by tauto)]
  · by_cases hcond : (pyStrip fa ≠ "" ∧ pyStrip fb ≠ "") ∨ (pyStrip fa = "" ∧ pyStrip fb = "")
    · rw [hpf, if_pos hcond]
      constructor
      · intro h; exact absurd h (by simp)
      · intro h; exact absurd (by tauto) h.1
    · rw [hpf, if_neg hcond]
      rcases hv : pyParseInt (floorDigits fa fb) with - | f0
      · constructor
        · intro h; exact absurd h (by simp)
        · rintro ⟨-, -, -, hp⟩
          exact absurd hp (by simp)
      · constructor
        · intro h
          split at h
          · exact absurd h (by simp)
          · next fl hrange =>
            injection hrange with h1
            subst h1
            split at h
            · exact absurd h (by simp)
            · next hr2 =>
              injection h with h2
              subst h2
              exact ⟨by tauto, by omega, by omega, rfl⟩
        · rintro ⟨-, h2, h6, hp⟩
          injection hp with h1
          subst h1
          show (if f0 < 2 ∨ 6 < f0 then none else some f0) = some f0
          rw [if_neg (by omega)]

/-- Witness for C7 at a concrete input: the field value `"4階"` (other
field empty) yields floor preference 4. -/
theorem c7_amended_parse_floor_witness : parse_floor "4階" "" = some 4 :=
  (c7_amended_parse_floor "4階" "" 4).2.mpr (by decide)

/-- C7 counterexample: for the field value `"階3階"` the code removes
every `'階'` (Python `replace`), parses `"3"` and accepts floor 3,
while the claimed algorithm (strip one trailing `'階'`) would fail to
parse `"階3"` and yield `none`. -/
theorem c7_counterexample :
    parse_floor "階3階" "" = some 3 ∧ floorPreferenceClaimed "階3階" "" = none := by
  decide

/-! ## Further C10 pieces: pid books, conflict uniqueness, emission ids -/

theorem pt_appC2_pids (apps pars : List Submission) (inel : List String) :
    (pt_appC2 apps pars inel).map (·.person_id) =
      (pt_app_candidates apps pars inel).map (·.person_id) := by
  unfold pt_appC2 pt_appC1
  simp only [List.map_map]
  refine List.map_congr_left ?_
  intro s hs
  simp only [Function.comp_apply]
  rw [person_id_markE3, person_id_markE3]

theorem pt_candidates2_pids_nodup (apps pars : List Submission) (inel : List String) :
    ((pt_candidates2 apps pars inel).map (·.person_id)).Nodup := by
  unfold pt_candidates2
  refine List.Nodup.sublist ((List.filter_sublist _).map _) ?_
  show ((pt_chosen apps pars inel).1.map (·.person_id)).Nodup
  unfold pt_chosen
  exact kept_pids_nodup _

theorem pt_app_candidates_pids_nodup (apps pars : List Submission)
    (inel : List String) :
    ((pt_app_candidates apps pars inel).map (·.person_id)).Nodup := by
  unfold pt_app_candidates
  exact List.Nodup.sublist ((List.filter_sublist _).map _)
    (pt_candidates2_pids_nodup apps pars inel)

theorem appC_parC_pid_ne (apps pars : List Submission) (inel : List String) :
    ∀ a ∈ pt_app_candidates apps pars inel, ∀ p ∈ pt_par_candidates apps pars inel,
      a.person_id ≠ p.person_id := by
  intro a ha p hp heq
  unfold pt_app_candidates at ha
  unfold pt_par_candidates at hp
  rcases List.mem_filter.mp ha with ⟨ha1, haR⟩
  rcases List.mem_filter.mp hp with ⟨hp1, hpR⟩
  have hap : a = p := List.inj_on_of_nodup_map
    (pt_candidates2_pids_nodup apps pars inel) ha1 hp1 heq
  rw [hap] at haR
  have h1 : p.role = "app" := by simpa using haR
  have h2 : p.role = "par" := by simpa using hpR
  rw [h1] at h2
  exact absurd h2 (by decide)

theorem pt_appC2_mem_pid (apps pars : List Submission) (inel : List String) :
    ∀ a ∈ pt_appC2 apps pars inel, ∃ y ∈ pt_app_candidates apps pars inel,
      a.person_id = y.person_id := by
  intro a ha
  unfold pt_appC2 pt_appC1 at ha
  simp only [List.mem_map] at ha
  obtain ⟨x0, ⟨y, hy, rfl⟩, rfl⟩ := ha
  exact ⟨y, hy, by rw [person_id_markE3, person_id_markE3]⟩

theorem pt_loserKeys_eq (apps pars : List Submission) (inel : List String) :
    pt_loserKeys apps pars inel = conflictLoserKeys (pt_reqs apps pars inel) := rfl

/-- In one conflict group, at most one member escapes the loser marks. -/
theorem conflict_survivor_unique (reqs : List Submission) (pid : String)
    (a1 a2 : Submission)
    (h1 : a1 ∈ reqs.filter (fun a => a.partner_id == pid))
    (h2 : a2 ∈ reqs.filter (fun a => a.partner_id == pid))
    (hn1 : subId a1 ∉ conflictLoserKeys reqs)
    (hn2 : subId a2 ∉ conflictLoserKeys reqs) : a1 = a2 := by
  have hpiduk : pid ∈ uniqueKeys (reqs.map (·.partner_id)) := by
    rw [mem_uniqueKeys]
    refine List.mem_map.mpr ⟨a1, (List.mem_filter.mp h1).1, ?_⟩
    simpa using (List.mem_filter.mp h1).2
  have hGgrp : reqs.filter (fun a => a.partner_id == pid) ∈ conflictGroups reqs := by
    unfold conflictGroups
    exact List.mem_map.mpr ⟨pid, hpiduk, rfl⟩
  by_cases hlen : (reqs.filter (fun a => a.partner_id == pid)).length ≤ 1
  · rcases hGe : reqs.filter (fun a => a.partner_id == pid) with - | ⟨x, G2⟩
    · rw [hGe] at h1; simp at h1
    · rcases hG2 : G2 with - | ⟨y, G3⟩
      · rw [hGe, hG2] at h1 h2
        rw [List.mem_singleton.mp h1, List.mem_singleton.mp h2]
      · rw [hGe, hG2] at hlen; simp at hlen
  · obtain ⟨k, rest, hs⟩ : ∃ k rest,
        sortSubs (reqs.filter (fun a => a.partner_id == pid)) = k :: rest := by
      rcases h : sortSubs (reqs.filter (fun a => a.partner_id == pid)) with
        - | ⟨k, rest⟩
      · have hlen2 :=
          (sortSubs_perm (reqs.filter (fun a => a.partner_id == pid))).length_eq
        rw [h] at hlen2
        have h0 : (reqs.filter (fun a => a.partner_id == pid)).length = 0 :=
          hlen2.symm
        omega
      · exact ⟨k, rest, rfl⟩
    have hkey : ∀ s ∈ reqs.filter (fun a => a.partner_id == pid), s ≠ k →
        subId s ∈ conflictLoserKeys reqs := by
      intro s hsG hsk
      unfold conflictLoserKeys
      refine List.mem_flatMap.mpr ⟨reqs.filter (fun a => a.partner_id == pid),
        hGgrp, ?_⟩
      rw [if_neg hlen]
      refine List.mem_map.mpr ⟨s, ?_, rfl⟩
      have hss : s ∈ sortSubs (reqs.filter (fun a => a.partner_id == pid)) :=
        (sortSubs_perm _).mem_iff.mpr hsG
      rw [hs] at hss ⊢
      rcases List.mem_cons.mp hss with rfl | hss
      · exact absurd rfl hsk
      · exact hss
    have e1 : a1 = k := by
      by_contra hne
      exact hn1 (hkey a1 h1 hne)
    have e2 : a2 = k := by
      by_contra hne
      exact hn2 (hkey a2 h2 hne)
    rw [e1, e2]

/-- Two clean partner-requiring survivors of the conflict marks that
reference the same partner are the same submission. -/
theorem pt_appC2_partner_unique (apps pars : List Submission) (inel : List String) :
    ∀ a1 ∈ pt_appC2 apps pars inel, ∀ a2 ∈ pt_appC2 apps pars inel,
      a1.error = none → a2.error = none →
      a1.has_partner = WITH_PARTNER → a2.has_partner = WITH_PARTNER →
      a1.partner_id = a2.partner_id → a1 = a2 := by
  have key : ∀ a ∈ pt_appC2 apps pars inel, a.error = none →
      a ∈ pt_appC1 apps pars inel ∧ subId a ∉ pt_loserKeys apps pars inel := by
    intro a ha he
    unfold pt_appC2 at ha
    simp only [List.mem_map] at ha
    obtain ⟨b, hb, rfl⟩ := ha
    have hb1 := markE3_of_error_none _ _ he
    rw [hb1] at he ⊢
    refine ⟨hb, ?_⟩
    intro hmem
    have hmk : (markE3 (pt_loserKeys apps pars inel) b).error = some "E3" := by
      unfold markE3
      rw [if_pos ⟨hmem, he⟩]
    rw [hb1, he] at hmk
    exact absurd hmk (by simp)
  intro a1 ha1 a2 ha2 he1 he2 hw1 hw2 hpp
  obtain ⟨hb1, hk1⟩ := key a1 ha1 he1
  obtain ⟨hb2, hk2⟩ := key a2 ha2 he2
  have hr1 : a1 ∈ pt_reqs apps pars inel := by
    unfold pt_reqs
    refine List.mem_filter.mpr ⟨hb1, ?_⟩
    simp [he1, hw1]
  have hr2 : a2 ∈ pt_reqs apps pars inel := by
    unfold pt_reqs
    refine List.mem_filter.mpr ⟨hb2, ?_⟩
    simp [he2, hw2]
  rw [pt_loserKeys_eq] at hk1 hk2
  refine conflict_survivor_unique (pt_reqs apps pars inel) a1.partner_id a1 a2
    ?_ ?_ hk1 hk2
  · exact List.mem_filter.mpr ⟨hr1, by simp⟩
  · exact List.mem_filter.mpr ⟨hr2, by simp [hpp]⟩

/-! ### Equation lemmas for `emitRowOf` -/

theorem emitRows_cons (parC : List Submission) (a : Submission)
    (l : List Submission) :
    emitRows parC (a :: l) = emitRowOf parC a ++ emitRows parC l := rfl

theorem emitRowOf_err (parC : List Submission) (a : Submission)
    (h : a.error ≠ none) : emitRowOf parC a = [] := by
  unfold emitRowOf
  rw [if_pos h]

theorem emitRowOf_solo (parC : List Submission) (a : Submission)
    (h1 : a.error = none) (h2 : a.has_partner ≠ WITH_PARTNER) :
    emitRowOf parC a = [⟨a.person_id, a.person_name, "", "", a.floor.getD 0⟩] := by
  unfold emitRowOf
  rw [if_neg (show ¬a.error ≠ none from fun h => h h1), if_neg h2]

theorem emitRowOf_nolookup (parC : List Submission) (a : Submission)
    (h1 : a.error = none) (h2 : a.has_partner = WITH_PARTNER)
    (h3 : partnerLookup parC a.partner_id = none) : emitRowOf parC a = [] := by
  unfold emitRowOf
  rw [if_neg (show ¬a.error ≠ none from fun h => h h1), if_pos h2, h3]

theorem emitRowOf_partner_err (parC : List Submission) (a p : Submission)
    (h1 : a.error = none) (h2 : a.has_partner = WITH_PARTNER)
    (h3 : partnerLookup parC a.partner_id = some p) (h4 : p.error ≠ none) :
    emitRowOf parC a = [] := by
  unfold emitRowOf
  rw [if_neg (show ¬a.error ≠ none from fun h => h h1), if_pos h2, h3]
  show (if p.error ≠ none then _ else _) = _
  rw [if_pos h4]

theorem emitRowOf_paired (parC : List Submission) (a p : Submission)
    (h1 : a.error = none) (h2 : a.has_partner = WITH_PARTNER)
    (h3 : partnerLookup parC a.partner_id = some p) (h4 : p.error = none) :
    emitRowOf parC a =
      [⟨a.person_id, a.person_name, p.person_id, p.person_name,
        a.floor.getD 0⟩] := by
  unfold emitRowOf
  rw [if_neg (show ¬a.error ≠ none from fun h => h h1), if_pos h2, h3]
  show (if p.error ≠ none then _ else _) = _
  rw [if_neg (show ¬p.error ≠ none from fun h => h h4)]

/-- Ids contributed by the accepted rows of the emission loop: they are
pairwise distinct, and each is the person id of an emitting applicant
or the id of its looked-up partner. -/
theorem emitRows_acceptedIds (parC : List Submission) :
    ∀ l : List Submission,
      ((l.map (·.person_id)).Nodup) →
      (∀ a ∈ l, ∀ p ∈ parC, a.person_id ≠ p.person_id) →
      (∀ a1 ∈ l, ∀ a2 ∈ l, a1.error = none → a2.error = none →
        a1.has_partner = WITH_PARTNER → a2.has_partner = WITH_PARTNER →
        a1.partner_id = a2.partner_id → a1 = a2) →
      (acceptedIds (emitRows parC l)).Nodup ∧
      (∀ x ∈ acceptedIds (emitRows parC l), ∃ a ∈ l, a.error = none ∧
        (x = a.person_id ∨ (a.has_partner = WITH_PARTNER ∧ x = a.partner_id ∧
          ∃ p ∈ parC, p.person_id = x))) := by
  intro l
  induction l with
  | nil =>
    intro h1 h2 h3
    constructor
    · show (acceptedIds []).Nodup
      simp [acceptedIds]
    · intro x hx
      simp [acceptedIds, emitRows] at hx
  | cons a l ih =>
    intro hnd hdisj huniq
    rw [List.map_cons] at hnd
    obtain ⟨hapid, hndtail⟩ := List.nodup_cons.mp hnd
    obtain ⟨ihn, ihc⟩ := ih hndtail
      (fun b hb p hp => hdisj b (List.mem_cons_of_mem _ hb) p hp)
      (fun b1 hb1 b2 hb2 => huniq b1 (List.mem_cons_of_mem _ hb1) b2
        (List.mem_cons_of_mem _ hb2))
    rw [emitRows_cons]
    have hacc : acceptedIds (emitRowOf parC a ++ emitRows parC l) =
        acceptedIds (emitRowOf parC a) ++ acceptedIds (emitRows parC l) := by
      unfold acceptedIds
      rw [List.flatMap_append]
    rw [hacc]
    have hhead : (acceptedIds (emitRowOf parC a)).Nodup ∧
        ∀ x ∈ acceptedIds (emitRowOf parC a), a.error = none ∧
          (x = a.person_id ∨ (a.has_partner = WITH_PARTNER ∧ x = a.partner_id ∧
            ∃ p ∈ parC, p.person_id = x)) := by
      by_cases h1 : a.error = none
      · by_cases h2 : a.has_partner = WITH_PARTNER
        · rcases hlk : partnerLookup parC a.partner_id with - | p
          · rw [emitRowOf_nolookup parC a h1 h2 hlk]
            constructor
            · simp [acceptedIds]
            · intro x hx; simp [acceptedIds] at hx
          · by_cases h4 : p.error = none
            · rw [emitRowOf_paired parC a p h1 h2 hlk h4]
              obtain ⟨hpmem, hppid⟩ := partnerLookup_some parC a.partner_id p hlk
              have hne : a.person_id ≠ p.person_id :=
                hdisj a (List.mem_cons_self a l) p hpmem
              constructor
              · show (rowIds _ ++ []).Nodup
                rw [List.append_nil]
                unfold rowIds
                by_cases h5 : p.person_id ≠ ""
                · rw [if_pos h5]
                  simp [hne]
                · rw [if_neg h5]
                  simp
              · intro x hx
                have hx2 : x ∈ rowIds
                    ⟨a.person_id, a.person_name, p.person_id, p.person_name,
                      a.floor.getD 0⟩ := by
                  simpa [acceptedIds] using hx
                unfold rowIds at hx2
                rcases List.mem_cons.mp hx2 with rfl | hx3
                · exact ⟨h1, Or.inl rfl⟩
                · refine ⟨h1, Or.inr ⟨h2, ?_, p, hpmem, ?_⟩⟩
                  · by_cases h5 : p.person_id ≠ ""
                    · rw [if_pos h5] at hx3
                      rw [List.mem_singleton.mp hx3, hppid]
                    · rw [if_neg h5] at hx3
                      simp at hx3
                  · by_cases h5 : p.person_id ≠ ""
                    · rw [if_pos h5] at hx3
                      rw [List.mem_singleton.mp hx3]
                    · rw [if_neg h5] at hx3
                      simp at hx3
            · rw [emitRowOf_partner_err parC a p h1 h2 hlk
                (show p.error ≠ none from h4)]
              constructor
              · simp [acceptedIds]
              · intro x hx; simp [acceptedIds] at hx
        · rw [emitRowOf_solo parC a h1 h2]
          constructor
          · show (rowIds _ ++ []).Nodup
            rw [List.append_nil]
            unfold rowIds
            simp
          · intro x hx
            have hx2 : x ∈ rowIds
                ⟨a.person_id, a.person_name, "", "", a.floor.getD 0⟩ := by
              simpa [acceptedIds] using hx
            unfold rowIds at hx2
            rcases List.mem_cons.mp hx2 with rfl | hx3
            · exact ⟨h1, Or.inl rfl⟩
            · simp at hx3
      · rw [emitRowOf_err parC a h1]
        constructor
        · simp [acceptedIds]
        · intro x hx; simp [acceptedIds] at hx
    constructor
    · rw [List.nodup_append]
      refine ⟨hhead.1, ihn, ?_⟩
      intro x hxh hxt
      obtain ⟨hae, hx⟩ := hhead.2 x hxh
      obtain ⟨b, hb, hbe, hbx⟩ := ihc x hxt
      rcases hx with hx | ⟨haw, hxpid, p, hp, hppid⟩
      · rcases hbx with hbx | ⟨hbw, hbxpid, q, hq, hqpid⟩
        · exact hapid (List.mem_map.mpr ⟨b, hb, by rw [← hbx, ← hx]⟩)
        · exact hdisj a (List.mem_cons_self a l) q hq (hx.symm.trans hqpid.symm)
      · rcases hbx with hbx | ⟨hbw, hbxpid, q, hq, hqpid⟩
        · exact hdisj b (List.mem_cons_of_mem _ hb) p hp
            (hbx.symm.trans hppid.symm)
        · have hab : a = b := huniq a (List.mem_cons_self _ _) b
            (List.mem_cons_of_mem _ hb) hae hbe haw hbw
            (by rw [← hxpid, hbxpid])
          exact hapid (List.mem_map.mpr ⟨b, hb, by rw [hab]⟩)
    · intro x hx
      rcases List.mem_append.mp hx with hx | hx
      · obtain ⟨hae, hxx⟩ := hhead.2 x hx
        exact ⟨a, List.mem_cons_self _ _, hae, hxx⟩
      · obtain ⟨b, hb, hrest⟩ := ihc x hx
        exact ⟨b, List.mem_cons_of_mem _ hb, hrest⟩

/-! ### `S0` submissions are the kept candidates (for C10) -/

theorem classifyStage_S0 (ids : List String) (x : Submission)
    (hpre : x.error = none ∨ x.error = some "E1" ∨ x.error = some "E2" ∨
      x.error = some "E3")
    (h : (classifyStage ids x).error = some "S0") :
    x.error = none ∧ classifyStage ids x = { x with error := some "S0" } := by
  unfold classifyStage at h ⊢
  by_cases h1 : x.error = none ∧ x.person_id ∈ ids
  · rw [if_pos h1]
    exact ⟨h1.1, rfl⟩
  · rw [if_neg h1] at h
    by_cases h2 : x.error = none
    · rw [if_pos h2] at h
      exact absurd h (by simp)
    · rw [if_neg h2] at h
      rcases hpre with h3 | h3 | h3 | h3
      · exact absurd h3 h2
      all_goals rw [h3] at h; exact absurd h (by simp)

theorem apps5_clean_is_kept (apps pars : List Submission) (inel : List String) :
    ∀ x ∈ pt_apps5 apps pars inel, x.error = none →
      x ∈ (pt_chosen apps pars inel).1 := by
  intro x hx hxe
  unfold pt_apps5 at hx
  simp only [List.mem_map] at hx
  obtain ⟨u, hu, rfl⟩ := hx
  have h1 := markE3_of_error_none _ _ hxe
  rw [h1] at hxe ⊢
  unfold pt_apps4 at hu
  simp only [List.mem_map] at hu
  obtain ⟨w, hw, rfl⟩ := hu
  have h2 := markE3_of_error_none _ _ hxe
  rw [h2] at hxe ⊢
  have hwc : w ∈ pt_candidates apps pars inel := by
    unfold pt_candidates
    refine List.mem_filter.mpr ⟨List.mem_append.mpr (Or.inl hw), ?_⟩
    simp [hxe]
  unfold pt_chosen
  rcases choose_latest_cover (pt_candidates apps pars inel) w hwc with hk | hd
  · exact hk
  · exfalso
    have hks : subId w ∈ pt_droppedKeys apps pars inel := by
      unfold pt_droppedKeys pt_chosen
      exact List.mem_map.mpr ⟨w, hd, rfl⟩
    have hmark : (markE3 (pt_droppedKeys apps pars inel) w).error = some "E3" := by
      unfold markE3
      rw [if_pos ⟨hks, hxe⟩]
    rw [h2, hxe] at hmark
    exact absurd hmark (by simp)

theorem pars5_clean_is_kept (apps pars : List Submission) (inel : List String) :
    ∀ x ∈ pt_pars5 apps pars inel, x.error = none →
      x ∈ (pt_chosen apps pars inel).1 := by
  intro x hx hxe
  unfold pt_pars5 at hx
  simp only [List.mem_map] at hx
  obtain ⟨u, hu, rfl⟩ := hx
  have h1 := markE3_of_error_none _ _ hxe
  rw [h1] at hxe ⊢
  unfold pt_pars4 at hu
  simp only [List.mem_map] at hu
  obtain ⟨w, hw, rfl⟩ := hu
  have h2 := markE3_of_error_none _ _ hxe
  rw [h2] at hxe ⊢
  have hwc : w ∈ pt_candidates apps pars inel := by
    unfold pt_candidates
    refine List.mem_filter.mpr ⟨List.mem_append.mpr (Or.inr hw), ?_⟩
    simp [hxe]
  unfold pt_chosen
  rcases choose_latest_cover (pt_candidates apps pars inel) w hwc with hk | hd
  · exact hk
  · exfalso
    have hks : subId w ∈ pt_droppedKeys apps pars inel := by
      unfold pt_droppedKeys pt_chosen
      exact List.mem_map.mpr ⟨w, hd, rfl⟩
    have hmark : (markE3 (pt_droppedKeys apps pars inel) w).error = some "E3" := by
      unfold markE3
      rw [if_pos ⟨hks, hxe⟩]
    rw [h2, hxe] at hmark
    exact absurd hmark (by simp)

theorem s0_is_kept (apps pars : List Submission) (inel : List String) :
    ∀ z, (z ∈ (process_term apps pars inel).1 ∨
        z ∈ (process_term apps pars inel).2.1) →
      z.error = some "S0" →
      ∃ w ∈ (pt_chosen apps pars inel).1, z = { w with error := some "S0" } := by
  intro z hz hze
  rcases hz with hz | hz
  · rw [process_term_fst] at hz
    obtain ⟨x, hx, rfl⟩ := List.mem_map.mp hz
    have hpre := pt_apps5_errPre apps pars inel x hx
    obtain ⟨hxe, hcl⟩ := classifyStage_S0 _ x hpre hze
    exact ⟨x, apps5_clean_is_kept apps pars inel x hx hxe, hcl⟩
  · rw [process_term_snd] at hz
    obtain ⟨x, hx, rfl⟩ := List.mem_map.mp hz
    have hpre := pt_pars5_errPre apps pars inel x hx
    obtain ⟨hxe, hcl⟩ := classifyStage_S0 _ x hpre hze
    exact ⟨x, pars5_clean_is_kept apps pars inel x hx hxe, hcl⟩

/-! ## C10: a person is accepted at most once per term -/

/-- C10: within one term, the person ids collected from the accepted
rows — every applicant column plus every nonempty partner column —
are pairwise distinct, and the person ids of the submissions that end
the term with `S0` are pairwise distinct as well.  The hypothesis
states that `(role, row_index)` identifies submissions, which holds in
every run since `row_index` enumerates each role's input file. -/
theorem c10_person_accepted_at_most_once (apps pars : List Submission)
    (inel : List String) (hnd : ((apps ++ pars).map subId).Nodup) :
    (acceptedIds (process_term apps pars inel).2.2).Nodup ∧
    ((((process_term apps pars inel).1 ++
        (process_term apps pars inel).2.1).filter
      (fun s => s.error == some "S0")).map (·.person_id)).Nodup := by
  constructor
  · rw [process_term_rows_eq]
    have hrows : (pt_emitted apps pars inel).rows =
        emitRows (pt_par_candidates apps pars inel) (pt_appC2 apps pars inel) := by
      unfold pt_emitted
      rw [emit_foldl_rows]
      rfl
    rw [hrows]
    refine (emitRows_acceptedIds _ _ ?_ ?_ ?_).1
    · rw [pt_appC2_pids]
      exact pt_app_candidates_pids_nodup apps pars inel
    · intro a ha p hp
      obtain ⟨y, hy, hay⟩ := pt_appC2_mem_pid apps pars inel a ha
      rw [hay]
      exact appC_parC_pid_ne apps pars inel y hy p hp
    · exact pt_appC2_partner_unique apps pars inel
  · have hbase : (((process_term apps pars inel).1 ++
        (process_term apps pars inel).2.1).filter
        (fun s => s.error == some "S0")).Nodup := by
      refine List.Nodup.sublist (List.filter_sublist _) ?_
      exact List.Nodup.of_map subId (by rw [process_term_keys]; exact hnd)
    refine List.Nodup.map_on ?_ hbase
    intro z1 hz1 z2 hz2 hpid
    rcases List.mem_filter.mp hz1 with ⟨hm1, hs1⟩
    rcases List.mem_filter.mp hz2 with ⟨hm2, hs2⟩
    have he1 : z1.error = some "S0" := by simpa using hs1
    have he2 : z2.error = some "S0" := by simpa using hs2
    obtain ⟨w1, hw1, hzw1⟩ := s0_is_kept apps pars inel z1
      (List.mem_append.mp hm1) he1
    obtain ⟨w2, hw2, hzw2⟩ := s0_is_kept apps pars inel z2
      (List.mem_append.mp hm2) he2
    have hkpn : ((pt_chosen apps pars inel).1.map (·.person_id)).Nodup := by
      unfold pt_chosen
      exact kept_pids_nodup _
    have hw12 : w1 = w2 := by
      refine List.inj_on_of_nodup_map hkpn hw1 hw2 ?_
      have p1 : z1.person_id = w1.person_id := by rw [hzw1]
      have p2 : z2.person_id = w2.person_id := by rw [hzw2]
      rw [← p1, ← p2, hpid]
    rw [hzw1, hzw2, hw12]

/-- Witness for C10 on the concrete conflict scenario. -/
theorem c10_person_accepted_at_most_once_witness :
    (acceptedIds (process_term [exAppA, exAppB] [exParP] []).2.2).Nodup ∧
    ((((process_term [exAppA, exAppB] [exParP] []).1 ++
        (process_term [exAppA, exAppB] [exParP] []).2.1).filter
      (fun s => s.error == some "S0")).map (·.person_id)).Nodup :=
  c10_person_accepted_at_most_once [exAppA, exAppB] [exParP] [] (by decide)

end Locker
